import Mathlib

/-!
# Visibility reconciliation of the complementary service plans filter

A shallow embedding of `ComplementaryServicePlansFilter.Run`
(`api/filters/complementary_plans.go`).

The filter calls the next handler, reads the broker id out of the response
body and then, inside one storage transaction, walks over every service plan of
the broker's catalog and creates or deletes visibilities for it.

* Go `error` values are terms of `Error`; a `nil` error is `none` or `Except.ok`.
* The storage interfaces (`storage.Repository`, `storage.Warehouse` and the
  repositories it hands out) are not part of the sources at hand: the filter is
  embedded over an arbitrary `Warehouse σ`, a record of the four storage calls
  the filter makes, acting on a transaction state `σ`.
* `gjson`, `uuid.NewV4` and `time.Now` are library calls; they are the fields
  of `Env`.
* Every storage call and every identity generation is recorded, in order, as an
  `Event`, so that statements about which writes are issued can be made.
-/

namespace ServiceManager

/-! ## Data model -/

/-- Go `error` values that reach the filter.  `ErrNotFoundInStorage` and
`ErrAlreadyExistsInStorage` are the two sentinel errors of the storage layer,
`Message` is any other error, `Errorf` is the value built by
`fmt.Errorf(format, arg)`, and `HandleStorageError` is the value returned by
`util.HandleStorageError(err, entityName, entityID)` for a non-nil `err`; that
helper is not among the sources, so its result is kept as a term that records
exactly the arguments the filter passes to it. -/
inductive Error where
  | ErrNotFoundInStorage : Error
  | ErrAlreadyExistsInStorage : Error
  | Message (text : String) : Error
  | Errorf (format : String) (arg : Error) : Error
  | HandleStorageError (err : Error) (entityName : String) (entityID : String) : Error
  deriving DecidableEq, Repr

/-- The fields of `types.ServicePlan` the filter reads. -/
structure ServicePlan where
  ID : String
  Name : String
  Metadata : String
  deriving DecidableEq, Repr

/-- The fields of `types.ServiceOffering` the filter and the catalog listing read. -/
structure ServiceOffering where
  ID : String
  Name : String
  BrokerID : String
  Plans : List ServicePlan
  deriving DecidableEq, Repr

/-- The record `types.Visibility`; times are points on a discrete clock. -/
structure Visibility where
  ID : String
  PlatformID : String
  ServicePlanID : String
  CreatedAt : Nat
  UpdatedAt : Nat
  deriving DecidableEq, Repr

/-- The part of `web.Request` that matters here. -/
structure Request where
  Method : String
  Path : String
  Body : String
  deriving DecidableEq, Repr

/-- The part of `web.Response` that matters here. -/
structure Response where
  StatusCode : Nat
  Body : String
  deriving DecidableEq, Repr

/-- The library calls of the filter.  `GetString json path` is
`gjson.GetBytes(json, path).String()`, `GetBool json path` is
`gjson.GetBytes(json, path).Bool()` (both total in Go: neither returns an
error), `NewV4 n` is the outcome of the call of `uuid.NewV4()` that comes after
`n` earlier ones, and `Now n` is `time.Now().UTC()` read right after it. -/
structure Env where
  GetString : String → String → String
  GetBool : String → String → Bool
  NewV4 : Nat → Except Error String
  Now : Nat → Nat

/-- The storage calls the filter makes inside the transaction, on a
transaction state `σ`: `ServiceOffering().ListWithServicePlansByBrokerID`,
`Visibility().ListByServicePlanID`, `Visibility().Delete` and
`Visibility().Create`. -/
structure Warehouse (σ : Type) where
  ListWithServicePlansByBrokerID : σ → String → Except Error (List ServiceOffering)
  ListByServicePlanID : σ → String → Except Error (List Visibility)
  Delete : σ → String → Except Error σ
  Create : σ → Visibility → Except Error (String × σ)

/-- A call the filter issues. -/
inductive Call where
  | ListWithServicePlansByBrokerID (brokerID : String) : Call
  | ListByServicePlanID (planID : String) : Call
  | Delete (id : String) : Call
  | NewV4 : Call
  | Create (v : Visibility) : Call
  deriving DecidableEq, Repr

/-- A call together with the error it returned (`none` for `nil`). -/
structure Event where
  call : Call
  err : Option Error
  deriving DecidableEq, Repr

/-- Whether the event is a `Visibility().Create` call. -/
def Event.isCreate (e : Event) : Bool :=
  match e.call with
  | Call.Create _ => true
  | _ => false

/-- Whether the event is a `Visibility().Delete` call. -/
def Event.isDelete (e : Event) : Bool :=
  match e.call with
  | Call.Delete _ => true
  | _ => false

/-- Whether the call of the event returned an error. -/
def Event.failed (e : Event) : Bool := e.err.isSome

/-- What a piece of the transaction callback leaves behind: the calls it
issued in order, the transaction state, the number of `uuid.NewV4` calls made so
far, and the value or error it ended with. -/
structure Step (σ : Type) (α : Type) where
  events : List Event
  store : σ
  uuids : Nat
  result : Except Error α

/-! ## The filter -/

/-- The loop `for _, visibility := range visibilitiesForPlan` (lines 75-94),
started with the current value of `hasPublicVisibility`; it ends with the final
value of `hasPublicVisibility` or with the error of the first failing
`Delete`. -/
def visibilityLoop {σ : Type} (W : Warehouse σ) (isComplementary : Bool) (n : Nat) :
    List Visibility → Bool → σ → Step σ Bool
  | [], hasPublicVisibility, st => ⟨[], st, n, Except.ok hasPublicVisibility⟩
  | visibility :: rest, hasPublicVisibility, st =>
    if isComplementary then
      if visibility.PlatformID = "" then
        visibilityLoop W isComplementary n rest true st
      else
        match W.Delete st visibility.ID with
        | Except.error err => ⟨[⟨Call.Delete visibility.ID, some err⟩], st, n, Except.error err⟩
        | Except.ok st1 =>
          let r := visibilityLoop W isComplementary n rest hasPublicVisibility st1
          ⟨⟨Call.Delete visibility.ID, none⟩ :: r.events, r.store, r.uuids, r.result⟩
    else
      if visibility.PlatformID = "" then
        match W.Delete st visibility.ID with
        | Except.error err => ⟨[⟨Call.Delete visibility.ID, some err⟩], st, n, Except.error err⟩
        | Except.ok st1 =>
          let r := visibilityLoop W isComplementary n rest hasPublicVisibility st1
          ⟨⟨Call.Delete visibility.ID, none⟩ :: r.events, r.store, r.uuids, r.result⟩
      else
        visibilityLoop W isComplementary n rest hasPublicVisibility st

/-- The visibility the filter builds at lines 103-108: `PlatformID` is left at
its zero value. -/
def newVisibility (servicePlan : ServicePlan) (uuid : String) (currentTime : Nat) : Visibility :=
  { ID := uuid, PlatformID := "", ServicePlanID := servicePlan.ID,
    CreatedAt := currentTime, UpdatedAt := currentTime }

/-- The part of the plan body after the visibility loop (lines 96-114). -/
def createIfMissing {σ : Type} (env : Env) (W : Warehouse σ) (servicePlan : ServicePlan)
    (isComplementary hasPublicVisibility : Bool) (st : σ) (n : Nat) : Step σ Unit :=
  if isComplementary && !hasPublicVisibility then
    match env.NewV4 n with
    | Except.error err =>
      ⟨[⟨Call.NewV4, some err⟩], st, n + 1,
        Except.error (Error.Errorf "could not generate GUID for visibility: %s" err)⟩
    | Except.ok uuid =>
      let currentTime := env.Now n
      let v := newVisibility servicePlan uuid currentTime
      match W.Create st v with
      | Except.error err =>
        ⟨[⟨Call.NewV4, none⟩, ⟨Call.Create v, some err⟩], st, n + 1,
          Except.error (Error.HandleStorageError err "visibility" uuid)⟩
      | Except.ok (_, st1) =>
        ⟨[⟨Call.NewV4, none⟩, ⟨Call.Create v, none⟩], st1, n + 1, Except.ok ()⟩
  else
    ⟨[], st, n, Except.ok ()⟩

/-- The body of `for _, servicePlan := range serviceOffering.Plans`
(lines 68-114). -/
def reconcilePlan {σ : Type} (env : Env) (W : Warehouse σ) (servicePlan : ServicePlan)
    (st : σ) (n : Nat) : Step σ Unit :=
  let planID := servicePlan.ID
  let isComplementary := env.GetBool servicePlan.Metadata "complementary"
  match W.ListByServicePlanID st planID with
  | Except.error err => ⟨[⟨Call.ListByServicePlanID planID, some err⟩], st, n, Except.error err⟩
  | Except.ok visibilitiesForPlan =>
    let r := visibilityLoop W isComplementary n visibilitiesForPlan false st
    match r.result with
    | Except.error err =>
      ⟨⟨Call.ListByServicePlanID planID, none⟩ :: r.events, r.store, r.uuids, Except.error err⟩
    | Except.ok hasPublicVisibility =>
      let c := createIfMissing env W servicePlan isComplementary hasPublicVisibility r.store r.uuids
      ⟨⟨Call.ListByServicePlanID planID, none⟩ :: (r.events ++ c.events), c.store, c.uuids,
        c.result⟩

/-- The loop `for _, servicePlan := range serviceOffering.Plans` (line 67). -/
def reconcilePlans {σ : Type} (env : Env) (W : Warehouse σ) :
    List ServicePlan → σ → Nat → Step σ Unit
  | [], st, n => ⟨[], st, n, Except.ok ()⟩
  | servicePlan :: rest, st, n =>
    let r := reconcilePlan env W servicePlan st n
    match r.result with
    | Except.error err => ⟨r.events, r.store, r.uuids, Except.error err⟩
    | Except.ok _ =>
      let r1 := reconcilePlans env W rest r.store r.uuids
      ⟨r.events ++ r1.events, r1.store, r1.uuids, r1.result⟩

/-- The loop `for _, serviceOffering := range catalog` (line 66). -/
def reconcileCatalog {σ : Type} (env : Env) (W : Warehouse σ) :
    List ServiceOffering → σ → Nat → Step σ Unit
  | [], st, n => ⟨[], st, n, Except.ok ()⟩
  | serviceOffering :: rest, st, n =>
    let r := reconcilePlans env W serviceOffering.Plans st n
    match r.result with
    | Except.error err => ⟨r.events, r.store, r.uuids, Except.error err⟩
    | Except.ok _ =>
      let r1 := reconcileCatalog env W rest r.store r.uuids
      ⟨r.events ++ r1.events, r1.store, r1.uuids, r1.result⟩

/-- The function handed to `InTransaction` (lines 58-118). -/
def reconcile {σ : Type} (env : Env) (W : Warehouse σ) (brokerID : String) (st : σ) (n : Nat) :
    Step σ Unit :=
  match W.ListWithServicePlansByBrokerID st brokerID with
  | Except.error err =>
    ⟨[⟨Call.ListWithServicePlansByBrokerID brokerID, some err⟩], st, n, Except.error err⟩
  | Except.ok catalog =>
    let r := reconcileCatalog env W catalog st n
    ⟨⟨Call.ListWithServicePlansByBrokerID brokerID, none⟩ :: r.events, r.store, r.uuids, r.result⟩

/-- Modelled from the spec: `storage.Repository.InTransaction` is not among the
sources.  The transaction commits only if the function it runs returns no
error: the state the function reached is kept when it returns `nil`, and the
state from before the transaction is restored when it returns an error, which
is handed back unchanged. -/
def InTransaction {σ : Type} {α : Type} (st : σ) (f : σ → Step σ α) : Step σ α :=
  let r := f st
  match r.result with
  | Except.ok a => ⟨r.events, r.store, r.uuids, Except.ok a⟩
  | Except.error err => ⟨r.events, st, r.uuids, Except.error err⟩

/-- What `Run` leaves behind: the two values it returns, the calls it issued,
the persisted state and the number of `uuid.NewV4` calls made so far. -/
structure RunResult (σ : Type) where
  response : Option Response
  err : Option Error
  events : List Event
  store : σ
  uuids : Nat

/-- The method `ComplementaryServicePlansFilter.Run` (lines 50-123); `next` is
`next.Handle`. -/
def Run {σ : Type} (env : Env) (W : Warehouse σ) (next : Request → Except Error Response)
    (req : Request) (st : σ) (n : Nat) : RunResult σ :=
  match next req with
  | Except.error err => ⟨none, some err, [], st, n⟩
  | Except.ok response =>
    let brokerID := env.GetString response.Body "id"
    let r := InTransaction st (fun s => reconcile env W brokerID s n)
    match r.result with
    | Except.error err => ⟨none, some err, r.events, r.store, r.uuids⟩
    | Except.ok _ => ⟨some response, none, r.events, r.store, r.uuids⟩

/-! ## A visibility store -/

/-- The persisted state: the service offerings with their plans, and the
visibility rows. -/
structure Store where
  offerings : List ServiceOffering
  visibilities : List Visibility
  deriving DecidableEq, Repr

/-- Modelled from the spec: the catalog listing of the storage layer, which is
not among the sources; it returns the offerings of the broker, in stored
order, with their plans. -/
def Store.ListWithServicePlansByBrokerID (st : Store) (brokerID : String) :
    Except Error (List ServiceOffering) :=
  Except.ok (st.offerings.filter (fun o => o.BrokerID = brokerID))

/-- Modelled from the spec: `ListByPlan(planID)` of the visibility store, which
is not among the sources; it returns the rows that reference the plan. -/
def Store.ListByServicePlanID (st : Store) (planID : String) : Except Error (List Visibility) :=
  Except.ok (st.visibilities.filter (fun v => v.ServicePlanID = planID))

/-- Modelled from the spec: `Delete(id)` of the visibility store, which is not
among the sources; it removes the row with that identity and is a no-op
success when the row is absent. -/
def Store.Delete (st : Store) (id : String) : Except Error Store :=
  Except.ok { st with visibilities := st.visibilities.filter (fun v => v.ID ≠ id) }

/-- Modelled from the spec: `Create(Visibility)` of the visibility store, which
is not among the sources; identities are unique, at most one row with empty
`platform_id` may exist per plan, and a row breaking either constraint is
refused. -/
def Store.Create (st : Store) (v : Visibility) : Except Error (String × Store) :=
  if st.visibilities.any (fun w => w.ID = v.ID) then
    Except.error Error.ErrAlreadyExistsInStorage
  else if v.PlatformID = "" ∧
      st.visibilities.any (fun w => w.ServicePlanID = v.ServicePlanID ∧ w.PlatformID = "") then
    Except.error Error.ErrAlreadyExistsInStorage
  else
    Except.ok (v.ID, { st with visibilities := st.visibilities ++ [v] })

/-- The storage calls of the filter, answered by a `Store`. -/
def storeWarehouse : Warehouse Store :=
  { ListWithServicePlansByBrokerID := Store.ListWithServicePlansByBrokerID
    ListByServicePlanID := Store.ListByServicePlanID
    Delete := Store.Delete
    Create := Store.Create }

/-! ## Shape of the issued calls -/

/-- Whether the visibility loop deletes the row: for a complementary plan the
rows bound to a platform, for any other plan the rows bound to no platform. -/
def toDelete (isComplementary : Bool) (v : Visibility) : Bool :=
  if isComplementary then decide (v.PlatformID ≠ "") else decide (v.PlatformID = "")

/-- The event of a `Delete` call that returned no error. -/
def deleted (v : Visibility) : Event := ⟨Call.Delete v.ID, none⟩

/-- No call in the list returned an error. -/
def Clean (events : List Event) : Prop := ∀ ev ∈ events, ev.err = none

/-- The error `err` a piece of the callback returns is the one the failed call
`ev` gives rise to: the error of a storage listing or of a `Delete` is returned
as it is, the error of `uuid.NewV4` inside `fmt.Errorf`, and the error of
`Create` through `util.HandleStorageError`. -/
def Explains (ev : Event) (err : Error) : Prop :=
  match ev.call with
  | Call.NewV4 =>
    ∃ e, ev.err = some e ∧ err = Error.Errorf "could not generate GUID for visibility: %s" e
  | Call.Create v => ∃ e, ev.err = some e ∧ err = Error.HandleStorageError e "visibility" v.ID
  | _ => ev.err = some err

/-- The shape of the calls of a piece of the callback: if it ends without an
error no call failed, and if it ends with an error exactly the last call
failed, and that failure is what it returns. -/
def FailStop {α : Type} (events : List Event) (result : Except Error α) : Prop :=
  match result with
  | Except.ok _ => Clean events
  | Except.error err =>
    ∃ pre ev, events = pre ++ [ev] ∧ Clean pre ∧ Explains ev err

/-! ## Sample inputs -/

/-- Metadata of a plan marked complementary: `{"complementary":true}`. -/
def complementaryMetadata : String := "\x7b\"complementary\":true\x7d"

/-- Metadata without a `complementary` entry: `{}`. -/
def emptyMetadata : String := "\x7b\x7d"

/-- Metadata with an explicit `false`: `{"complementary":false}`. -/
def notComplementaryMetadata : String := "\x7b\"complementary\":false\x7d"

/-- The body of a broker response: `{"id":"b1"}`. -/
def brokerBody : String := "\x7b\"id\":\"b1\"\x7d"

/-- Library calls for the sample inputs.  The two `gjson` look-ups are given
as tables over the documents used here and are not meant for any other
document: `GetString` finds the string `b1` under `id` in `brokerBody`;
`GetBool` finds `true` under `complementary` in `complementaryMetadata`,
`false` in `notComplementaryMetadata` and no entry in `emptyMetadata`, and for
a missing entry `Bool()` is `false`.  Identity generation never fails and
numbers its results. -/
def sampleEnv : Env :=
  { GetString := fun json path => if json = brokerBody ∧ path = "id" then "b1" else ""
    GetBool := fun json path => decide (json = complementaryMetadata ∧ path = "complementary")
    NewV4 := fun n => Except.ok ("uuid-" ++ toString n)
    Now := fun n => 100 + n }

/-- Library calls like `sampleEnv`, except that `uuid.NewV4` fails. -/
def failingUuidEnv : Env :=
  { sampleEnv with NewV4 := fun _ => Except.error (Error.Message "no entropy") }

/-- A next handler that answers every request with the broker `b1`. -/
def sampleNext : Request → Except Error Response :=
  fun _ => Except.ok ⟨200, brokerBody⟩

/-- A next handler that fails. -/
def failingNext : Request → Except Error Response :=
  fun _ => Except.error (Error.Message "bad request")

/-- A request that updates the broker `b1`. -/
def sampleRequest : Request := ⟨"PATCH", "/v1/service_brokers/b1", emptyMetadata⟩

/-- The complementary plan `A`. -/
def planA : ServicePlan := ⟨"A", "plan-a", complementaryMetadata⟩

/-- The plan `B`, whose metadata has no `complementary` entry. -/
def planB : ServicePlan := ⟨"B", "plan-b", emptyMetadata⟩

/-- The catalog of broker `b1`: one offering with the plans `A` and `B`. -/
def sampleOfferings : List ServiceOffering := [⟨"o1", "service", "b1", [planA, planB]⟩]

/-- Plan `A` has one visibility for platform `p1`, plan `B` a public one. -/
def sampleStore : Store :=
  { offerings := sampleOfferings
    visibilities := [⟨"v1", "p1", "A", 1, 1⟩, ⟨"v2", "", "B", 2, 2⟩] }

/-- No plan has a visibility. -/
def emptyStore : Store := { offerings := sampleOfferings, visibilities := [] }

/-- The storage as a run sees it that loses every race against a concurrent
writer: rows it has listed are gone when it deletes them, and the public row
it wants to create has been created by someone else. -/
def racingWarehouse : Warehouse Store :=
  { ListWithServicePlansByBrokerID := Store.ListWithServicePlansByBrokerID
    ListByServicePlanID := Store.ListByServicePlanID
    Delete := fun _ _ => Except.error Error.ErrNotFoundInStorage
    Create := fun _ _ => Except.error Error.ErrAlreadyExistsInStorage }

/-! ## Reading a store -/

/-- The plans of a catalog, in the order the two loops visit them. -/
def plansOf : List ServiceOffering → List ServicePlan
  | [] => []
  | serviceOffering :: rest => serviceOffering.Plans ++ plansOf rest

/-- The catalog the store lists for a broker. -/
def Store.catalog (st : Store) (brokerID : String) : List ServiceOffering :=
  st.offerings.filter (fun o => o.BrokerID = brokerID)

/-- Whether the row is a public visibility of the plan: it references the plan
and has an empty `PlatformID`. -/
def isPublicFor (planID : String) (v : Visibility) : Bool :=
  decide (v.ServicePlanID = planID) && decide (v.PlatformID = "")

/-- The number of rows with an empty `PlatformID` that reference the plan. -/
def publicCount (rows : List Visibility) (planID : String) : Nat :=
  (rows.filter (isPublicFor planID)).length

/-- The rows that reference the plan. -/
def rowsOf (rows : List Visibility) (planID : String) : List Visibility :=
  rows.filter (fun v => decide (v.ServicePlanID = planID))

/-- Whether the plan is marked complementary, as line 69 reads it. -/
def isComplementary (env : Env) (p : ServicePlan) : Bool :=
  env.GetBool p.Metadata "complementary"

/-- Whether processing the plan leaves the row in place: a row of another plan
always, a row of the plan unless the visibility loop deletes it. -/
def keeps (env : Env) (p : ServicePlan) (v : Visibility) : Bool :=
  !(decide (v.ServicePlanID = p.ID) && toDelete (isComplementary env p) v)

/-- Whether processing all the plans leaves the row in place. -/
def survives (env : Env) (plans : List ServicePlan) (v : Visibility) : Bool :=
  plans.all (fun p => keeps env p v)

/-- Whether the plan is complementary and has no public visibility among the
rows. -/
def needsPublic (env : Env) (rows : List Visibility) (p : ServicePlan) : Bool :=
  isComplementary env p && !(rows.any (isPublicFor p.ID))

/-- A visibility without what is generated when it is created: its identity
and its two timestamps. -/
def withoutGenerated (v : Visibility) : Visibility :=
  { v with ID := "", CreatedAt := 0, UpdatedAt := 0 }

/-- Identities are unique among the rows. -/
def UniqueIDs (rows : List Visibility) : Prop := (rows.map (fun v => v.ID)).Nodup

/-- Plan identities are unique among the plans. -/
def UniquePlanIDs (plans : List ServicePlan) : Prop := (plans.map (fun p => p.ID)).Nodup

instance (rows : List Visibility) : Decidable (UniqueIDs rows) := by
  unfold UniqueIDs; infer_instance

instance (plans : List ServicePlan) : Decidable (UniquePlanIDs plans) := by
  unfold UniquePlanIDs; infer_instance

/-- The store once the visibility loop has run for the plan: the rows whose
identity is that of a row of the plan the loop deletes are gone. -/
def Store.afterLoop (st : Store) (env : Env) (p : ServicePlan) : Store :=
  { st with visibilities := (st.visibilities.filter (fun v => decide (v.ID ∉
      ((rowsOf st.visibilities p.ID).filter (toDelete (isComplementary env p))).map
        (fun w => w.ID)))) }

/-- The complementary plan `A` has two public visibilities. -/
def twoPublicStore : Store :=
  { offerings := sampleOfferings
    visibilities := [⟨"v1", "", "A", 1, 1⟩, ⟨"v2", "", "A", 2, 2⟩] }

/-- The second catalog is the first one with the plans reordered within the
offerings and the offerings reordered. -/
def Reordered (c1 c2 : List ServiceOffering) : Prop :=
  ∃ c, List.Forall₂ (fun o1 o2 => o1.Plans.Perm o2.Plans) c1 c ∧ c.Perm c2

/-- The catalog of broker `b1` with the plans in the other order. -/
def swappedOfferings : List ServiceOffering := [⟨"o1", "service", "b1", [planB, planA]⟩]

/-- The store `sampleStore` with the catalog listed in the other order. -/
def swappedStore : Store :=
  { offerings := swappedOfferings
    visibilities := [⟨"v1", "p1", "A", 1, 1⟩, ⟨"v2", "", "B", 2, 2⟩] }

/-! ## Reading an error -/

/-- Whether the text `s` occurs in the string `text`. -/
def occursIn (s text : String) : Bool := decide (s.data <:+: text.data)

/-- Whether the text `s` occurs in what the error is built from: the text of a
message, the format and the argument of `fmt.Errorf`, and the three arguments
of `util.HandleStorageError`. -/
def Error.mentions : Error → String → Bool
  | Error.ErrNotFoundInStorage, _ => false
  | Error.ErrAlreadyExistsInStorage, _ => false
  | Error.Message text, s => occursIn s text
  | Error.Errorf format arg, s => occursIn s format || arg.mentions s
  | Error.HandleStorageError err entityName entityID, s =>
    err.mentions s || occursIn s entityName || occursIn s entityID

/-- A storage whose catalog listing fails. -/
def downWarehouse : Warehouse Store :=
  { ListWithServicePlansByBrokerID := fun _ _ => Except.error (Error.Message "connection refused")
    ListByServicePlanID := Store.ListByServicePlanID
    Delete := Store.Delete
    Create := Store.Create }

/-- A row of a plan `Z` that is in no catalog, next to the rows of
`sampleStore`. -/
def foreignRowStore : Store :=
  { offerings := sampleOfferings
    visibilities := [⟨"v0", "p9", "Z", 3, 3⟩, ⟨"v1", "p1", "A", 1, 1⟩, ⟨"v2", "", "B", 2, 2⟩] }

/-! ## The calls of the filter over any storage -/

theorem clean_nil : Clean [] := by
  intro ev h; cases h

theorem clean_cons {ev : Event} {evs : List Event} (h : ev.err = none) (hs : Clean evs) :
    Clean (ev :: evs) := by
  intro x hx
  rcases List.mem_cons.1 hx with rfl | hx
  · exact h
  · exact hs x hx

theorem clean_append {xs ys : List Event} (hx : Clean xs) (hy : Clean ys) : Clean (xs ++ ys) := by
  intro x h
  rcases List.mem_append.1 h with h | h
  · exact hx x h
  · exact hy x h

theorem failStop_append {α : Type} {xs ys : List Event} {res : Except Error α}
    (hx : Clean xs) (hy : FailStop ys res) : FailStop (xs ++ ys) res := by
  cases res with
  | ok a => exact clean_append hx hy
  | error err =>
    obtain ⟨pre, ev, hev, hpre, hex⟩ := hy
    exact ⟨xs ++ pre, ev, by rw [hev, List.append_assoc], clean_append hx hpre, hex⟩

theorem failStop_cons {α : Type} {x : Event} {ys : List Event} {res : Except Error α}
    (hx : x.err = none) (hy : FailStop ys res) : FailStop (x :: ys) res :=
  @failStop_append α [x] ys res (clean_cons hx clean_nil) hy

theorem failStop_single {α : Type} (ev : Event) (err : Error) (h : Explains ev err) :
    @FailStop α [ev] (Except.error err) :=
  ⟨[], ev, rfl, clean_nil, h⟩

/-- The visibility loop in closed form, when it ends without an error. -/
theorem visibilityLoop_ok {σ : Type} (W : Warehouse σ) (isC : Bool) (n : Nat) :
    ∀ (L : List Visibility) (hp : Bool) (st : σ) (b : Bool),
      (visibilityLoop W isC n L hp st).result = Except.ok b →
      (visibilityLoop W isC n L hp st).events = ((L.filter (toDelete isC)).map deleted) ∧
      b = (hp || (isC && L.any (fun v => decide (v.PlatformID = "")))) ∧
      (visibilityLoop W isC n L hp st).uuids = n := by
  intro L
  induction L with
  | nil =>
    intro hp st b h
    simp [visibilityLoop] at h ⊢
    exact h.symm
  | cons v rest ih =>
    intro hp st b h
    cases isC with
    | true =>
      by_cases hv : v.PlatformID = ""
      · simp only [visibilityLoop, hv, ↓reduceIte, Bool.false_eq_true] at h ⊢
        obtain ⟨h1, h2, h3⟩ := ih true st b h
        refine ⟨?_, ?_, h3⟩
        · rw [h1]; simp [toDelete, hv]
        · rw [h2]; simp [hv]
      · simp only [visibilityLoop, hv, ↓reduceIte, Bool.false_eq_true] at h ⊢
        cases hd : W.Delete st v.ID with
        | error e => simp [hd] at h
        | ok st1 =>
          simp only [hd] at h ⊢
          obtain ⟨h1, h2, h3⟩ := ih hp st1 b h
          refine ⟨?_, ?_, h3⟩
          · rw [h1]; simp [toDelete, hv, deleted]
          · rw [h2]; simp [hv]
    | false =>
      by_cases hv : v.PlatformID = ""
      · simp only [visibilityLoop, hv, ↓reduceIte, Bool.false_eq_true] at h ⊢
        cases hd : W.Delete st v.ID with
        | error e => simp [hd] at h
        | ok st1 =>
          simp only [hd] at h ⊢
          obtain ⟨h1, h2, h3⟩ := ih hp st1 b h
          refine ⟨?_, ?_, h3⟩
          · rw [h1]; simp [toDelete, hv, deleted]
          · rw [h2]; simp
      · simp only [visibilityLoop, hv, ↓reduceIte, Bool.false_eq_true] at h ⊢
        obtain ⟨h1, h2, h3⟩ := ih hp st b h
        refine ⟨?_, ?_, h3⟩
        · rw [h1]; simp [toDelete, hv]
        · rw [h2]; simp

theorem visibilityLoop_failStop {σ : Type} (W : Warehouse σ) (isC : Bool) (n : Nat) :
    ∀ (L : List Visibility) (hp : Bool) (st : σ),
      FailStop (visibilityLoop W isC n L hp st).events (visibilityLoop W isC n L hp st).result := by
  intro L
  induction L with
  | nil => intro hp st; simp [visibilityLoop, FailStop, Clean]
  | cons v rest ih =>
    intro hp st
    have del : FailStop
        (match W.Delete st v.ID with
          | Except.error err =>
            (⟨[⟨Call.Delete v.ID, some err⟩], st, n, Except.error err⟩ : Step σ Bool)
          | Except.ok st1 =>
            ⟨⟨Call.Delete v.ID, none⟩ :: (visibilityLoop W isC n rest hp st1).events,
              (visibilityLoop W isC n rest hp st1).store,
              (visibilityLoop W isC n rest hp st1).uuids,
              (visibilityLoop W isC n rest hp st1).result⟩).events
        (match W.Delete st v.ID with
          | Except.error err =>
            (⟨[⟨Call.Delete v.ID, some err⟩], st, n, Except.error err⟩ : Step σ Bool)
          | Except.ok st1 =>
            ⟨⟨Call.Delete v.ID, none⟩ :: (visibilityLoop W isC n rest hp st1).events,
              (visibilityLoop W isC n rest hp st1).store,
              (visibilityLoop W isC n rest hp st1).uuids,
              (visibilityLoop W isC n rest hp st1).result⟩).result := by
      cases hd : W.Delete st v.ID with
      | error e => exact failStop_single _ _ (by simp [Explains])
      | ok st1 => exact failStop_cons rfl (ih hp st1)
    cases isC with
    | true =>
      by_cases hv : v.PlatformID = ""
      · simp only [visibilityLoop, hv, ↓reduceIte]
        exact ih true st
      · simp only [visibilityLoop, hv, ↓reduceIte]
        exact del
    | false =>
      by_cases hv : v.PlatformID = ""
      · simp only [visibilityLoop, hv, ↓reduceIte, Bool.false_eq_true]
        exact del
      · simp only [visibilityLoop, hv, ↓reduceIte, Bool.false_eq_true]
        exact ih hp st

theorem createIfMissing_failStop {σ : Type} (env : Env) (W : Warehouse σ) (p : ServicePlan)
    (isC hp : Bool) (st : σ) (n : Nat) :
    FailStop (createIfMissing env W p isC hp st n).events
      (createIfMissing env W p isC hp st n).result := by
  unfold createIfMissing
  split
  · cases hu : env.NewV4 n with
    | error e => exact failStop_single _ _ ⟨e, rfl, rfl⟩
    | ok uuid =>
      simp only
      cases hc : W.Create st (newVisibility p uuid (env.Now n)) with
      | error e =>
        exact ⟨[⟨Call.NewV4, none⟩], _, rfl, clean_cons rfl clean_nil, ⟨e, rfl, rfl⟩⟩
      | ok a =>
        obtain ⟨id, st1⟩ := a
        exact clean_cons rfl (clean_cons rfl clean_nil)
  · exact clean_nil

theorem reconcilePlan_failStop {σ : Type} (env : Env) (W : Warehouse σ) (p : ServicePlan)
    (st : σ) (n : Nat) :
    FailStop (reconcilePlan env W p st n).events (reconcilePlan env W p st n).result := by
  simp only [reconcilePlan]
  cases hl : W.ListByServicePlanID st p.ID with
  | error e =>
    dsimp only
    refine failStop_single _ _ ?_
    simp [Explains]
  | ok L =>
    dsimp only
    have hloop := visibilityLoop_failStop W (env.GetBool p.Metadata "complementary") n L false st
    cases hr : (visibilityLoop W (env.GetBool p.Metadata "complementary") n L false st).result with
    | error e =>
      rw [hr] at hloop
      dsimp only
      exact failStop_cons rfl hloop
    | ok hp =>
      rw [hr] at hloop
      dsimp only
      exact failStop_cons rfl (failStop_append hloop (createIfMissing_failStop _ _ _ _ _ _ _))

theorem reconcilePlans_failStop {σ : Type} (env : Env) (W : Warehouse σ) :
    ∀ (plans : List ServicePlan) (st : σ) (n : Nat),
      FailStop (reconcilePlans env W plans st n).events (reconcilePlans env W plans st n).result := by
  intro plans
  induction plans with
  | nil => intro st n; exact clean_nil
  | cons p rest ih =>
    intro st n
    have hp := reconcilePlan_failStop env W p st n
    simp only [reconcilePlans]
    cases hr : (reconcilePlan env W p st n).result with
    | error e => rw [hr] at hp; exact hp
    | ok u => rw [hr] at hp; exact failStop_append hp (ih _ _)

theorem reconcileCatalog_failStop {σ : Type} (env : Env) (W : Warehouse σ) :
    ∀ (catalog : List ServiceOffering) (st : σ) (n : Nat),
      FailStop (reconcileCatalog env W catalog st n).events
        (reconcileCatalog env W catalog st n).result := by
  intro catalog
  induction catalog with
  | nil => intro st n; exact clean_nil
  | cons o rest ih =>
    intro st n
    have hp := reconcilePlans_failStop env W o.Plans st n
    simp only [reconcileCatalog]
    cases hr : (reconcilePlans env W o.Plans st n).result with
    | error e => rw [hr] at hp; exact hp
    | ok u => rw [hr] at hp; exact failStop_append hp (ih _ _)

theorem reconcile_failStop {σ : Type} (env : Env) (W : Warehouse σ) (brokerID : String)
    (st : σ) (n : Nat) :
    FailStop (reconcile env W brokerID st n).events (reconcile env W brokerID st n).result := by
  simp only [reconcile]
  cases hl : W.ListWithServicePlansByBrokerID st brokerID with
  | error e =>
    dsimp only
    refine failStop_single _ _ ?_
    simp [Explains]
  | ok catalog =>
    dsimp only
    exact failStop_cons rfl (reconcileCatalog_failStop env W catalog st n)

theorem toDelete_true : toDelete true = fun v => decide (v.PlatformID ≠ "") := by
  funext v; simp [toDelete]

theorem toDelete_false : toDelete false = fun v => decide (v.PlatformID = "") := by
  funext v; simp [toDelete]

theorem filter_isDelete_deleted (L : List Visibility) :
    (L.map deleted).filter Event.isDelete = L.map deleted := by
  induction L with
  | nil => rfl
  | cons v rest ih => simp [List.filter, deleted, Event.isDelete] at ih ⊢

theorem filter_isCreate_deleted (L : List Visibility) :
    (L.map deleted).filter Event.isCreate = [] := by
  induction L with
  | nil => rfl
  | cons v rest ih => simp [deleted, Event.isCreate] at ih ⊢

/-- The plan body in closed form, when it ends without an error: the listing,
one `Delete` per row the loop removes, then the calls of the create part. -/
theorem reconcilePlan_ok {σ : Type} (env : Env) (W : Warehouse σ) (p : ServicePlan) (st : σ)
    (n : Nat) (L : List Visibility) (hL : W.ListByServicePlanID st p.ID = Except.ok L)
    (hok : (reconcilePlan env W p st n).result = Except.ok ()) :
    (reconcilePlan env W p st n).events =
      ⟨Call.ListByServicePlanID p.ID, none⟩ ::
        ((L.filter (toDelete (env.GetBool p.Metadata "complementary"))).map deleted ++
          (createIfMissing env W p (env.GetBool p.Metadata "complementary")
            (env.GetBool p.Metadata "complementary" && L.any (fun v => decide (v.PlatformID = "")))
            (visibilityLoop W (env.GetBool p.Metadata "complementary") n L false st).store
            n).events) ∧
    (createIfMissing env W p (env.GetBool p.Metadata "complementary")
            (env.GetBool p.Metadata "complementary" && L.any (fun v => decide (v.PlatformID = "")))
            (visibilityLoop W (env.GetBool p.Metadata "complementary") n L false st).store
            n).result = Except.ok () := by
  simp only [reconcilePlan, hL] at hok ⊢
  cases hr : (visibilityLoop W (env.GetBool p.Metadata "complementary") n L false st).result with
  | error e => simp [hr] at hok
  | ok hp =>
    obtain ⟨h1, h2, h3⟩ := visibilityLoop_ok W _ n L false st hp hr
    simp only [hr] at hok ⊢
    rw [h3] at hok ⊢
    rw [h1]
    simp only [Bool.false_or] at h2
    rw [h2] at hok ⊢
    exact ⟨rfl, hok⟩

theorem createIfMissing_false {σ : Type} (env : Env) (W : Warehouse σ) (p : ServicePlan)
    (hp : Bool) (st : σ) (n : Nat) :
    createIfMissing env W p false hp st n = ⟨[], st, n, Except.ok ()⟩ := by
  simp [createIfMissing]

/-- The calls of the create part for a complementary plan, when it ends
without an error. -/
theorem createIfMissing_ok {σ : Type} (env : Env) (W : Warehouse σ) (p : ServicePlan)
    (hp : Bool) (st : σ) (n : Nat)
    (hok : (createIfMissing env W p true hp st n).result = Except.ok ()) :
    (hp = true → (createIfMissing env W p true hp st n).events = []) ∧
    (hp = false → ∃ uuid, env.NewV4 n = Except.ok uuid ∧
      (createIfMissing env W p true hp st n).events =
        [⟨Call.NewV4, none⟩, ⟨Call.Create (newVisibility p uuid (env.Now n)), none⟩]) := by
  cases hp with
  | true => simp [createIfMissing]
  | false =>
    simp only [createIfMissing, Bool.not_false, Bool.and_self, ↓reduceIte] at hok ⊢
    cases hu : env.NewV4 n with
    | error e => simp [hu] at hok
    | ok uuid =>
      simp only [hu] at hok ⊢
      cases hc : W.Create st (newVisibility p uuid (env.Now n)) with
      | error e => simp [hc] at hok
      | ok a => simp

/-- Claim C3.  For a plan whose metadata marks it complementary and the list
`L` of visibilities `ListByServicePlanID` returned for it, when the plan is
processed without an error the `Delete` calls are exactly one per row of `L`
with a non-empty `PlatformID`, by its ID and in order, each successful; no
`Create` is issued if `L` has a row with empty `PlatformID`, and exactly one
otherwise, of a visibility with a fresh identity, empty `PlatformID` and
the plan's ID as `ServicePlanID`.  So `L = []` gives no delete and one create,
and a single row for a platform gives one delete and one create. -/
theorem complementary_plan_writes {σ : Type} (env : Env) (W : Warehouse σ) (p : ServicePlan)
    (st : σ) (n : Nat) (L : List Visibility)
    (hc : env.GetBool p.Metadata "complementary" = true)
    (hL : W.ListByServicePlanID st p.ID = Except.ok L)
    (hok : (reconcilePlan env W p st n).result = Except.ok ()) :
    (reconcilePlan env W p st n).events.filter Event.isDelete =
        (L.filter (fun v => decide (v.PlatformID ≠ ""))).map (fun v => ⟨Call.Delete v.ID, none⟩) ∧
    (L.any (fun v => decide (v.PlatformID = "")) = true →
      (reconcilePlan env W p st n).events.filter Event.isCreate = []) ∧
    (L.any (fun v => decide (v.PlatformID = "")) = false →
      ∃ uuid, env.NewV4 n = Except.ok uuid ∧
        (reconcilePlan env W p st n).events.filter Event.isCreate =
          [⟨Call.Create ⟨uuid, "", p.ID, env.Now n, env.Now n⟩, none⟩]) ∧
    (L = [] → ((reconcilePlan env W p st n).events.filter Event.isDelete).length = 0 ∧
      ((reconcilePlan env W p st n).events.filter Event.isCreate).length = 1) ∧
    (∀ v, L = [v] → v.PlatformID ≠ "" →
      (reconcilePlan env W p st n).events.filter Event.isDelete = [⟨Call.Delete v.ID, none⟩] ∧
      ((reconcilePlan env W p st n).events.filter Event.isCreate).length = 1) := by
  obtain ⟨hev, hcr⟩ := reconcilePlan_ok env W p st n L hL hok
  rw [hc] at hev hcr
  simp only [Bool.true_and] at hev hcr
  obtain ⟨hyes, hno⟩ := createIfMissing_ok env W p _ _ n hcr
  have hdel : (reconcilePlan env W p st n).events.filter Event.isDelete =
      (L.filter (fun v => decide (v.PlatformID ≠ ""))).map (fun v => ⟨Call.Delete v.ID, none⟩) := by
    rw [hev]
    rcases Bool.eq_false_or_eq_true (L.any (fun v => decide (v.PlatformID = ""))) with hany | hany
    · rw [hyes hany]
      simp only [List.filter_cons, List.append_nil, Event.isDelete]
      rw [filter_isDelete_deleted, toDelete_true]
      rfl
    · obtain ⟨uuid, -, hevc⟩ := hno hany
      rw [hevc]
      simp only [List.filter_cons, List.filter_append, Event.isDelete]
      rw [filter_isDelete_deleted, toDelete_true]
      simp [deleted]
  have hcy : L.any (fun v => decide (v.PlatformID = "")) = true →
      (reconcilePlan env W p st n).events.filter Event.isCreate = [] := by
    intro hany
    rw [hev, hyes hany]
    simp only [List.filter_cons, List.append_nil, Event.isCreate]
    simpa using filter_isCreate_deleted (L.filter (toDelete true))
  have hcn : L.any (fun v => decide (v.PlatformID = "")) = false →
      ∃ uuid, env.NewV4 n = Except.ok uuid ∧
        (reconcilePlan env W p st n).events.filter Event.isCreate =
          [⟨Call.Create ⟨uuid, "", p.ID, env.Now n, env.Now n⟩, none⟩] := by
    intro hany
    obtain ⟨uuid, hu, hevc⟩ := hno hany
    refine ⟨uuid, hu, ?_⟩
    rw [hev, hevc]
    simp only [List.filter_cons, List.filter_append, Event.isCreate]
    have := filter_isCreate_deleted (L.filter (toDelete true))
    simp [this, newVisibility]
  refine ⟨hdel, hcy, hcn, ?_, ?_⟩
  · intro hnil
    subst hnil
    obtain ⟨uuid, -, h⟩ := hcn (by simp)
    rw [hdel, h]; simp
  · intro v hv hne
    subst hv
    obtain ⟨uuid, -, h⟩ := hcn (by simp [hne])
    rw [hdel, h]; simp [hne]

/-- The statement of C3 at plan `A` of `sampleStore`, which has one row for a
platform. -/
theorem complementary_plan_writes_witness :
    (reconcilePlan sampleEnv storeWarehouse planA sampleStore 0).events.filter Event.isDelete =
        [⟨Call.Delete "v1", none⟩] ∧
    ((reconcilePlan sampleEnv storeWarehouse planA sampleStore 0).events.filter
      Event.isCreate).length = 1 :=
  (complementary_plan_writes sampleEnv storeWarehouse planA sampleStore 0
    [⟨"v1", "p1", "A", 1, 1⟩] (by decide) rfl rfl).2.2.2.2
    ⟨"v1", "p1", "A", 1, 1⟩ rfl (by decide)

/-- Claim C4.  For a plan whose metadata does not mark it complementary and
the list `L` of visibilities `ListByServicePlanID` returned for it, when the
plan is processed without an error the `Delete` calls are exactly one per row
of `L` with an empty `PlatformID`, by its ID and in order, none for a row with
a non-empty `PlatformID`, and no `Create` is issued.  So a single public row
gives one delete and no create, and a single row for a platform gives
neither. -/
theorem other_plan_writes {σ : Type} (env : Env) (W : Warehouse σ) (p : ServicePlan)
    (st : σ) (n : Nat) (L : List Visibility)
    (hc : env.GetBool p.Metadata "complementary" = false)
    (hL : W.ListByServicePlanID st p.ID = Except.ok L)
    (hok : (reconcilePlan env W p st n).result = Except.ok ()) :
    (reconcilePlan env W p st n).events.filter Event.isDelete =
        (L.filter (fun v => decide (v.PlatformID = ""))).map (fun v => ⟨Call.Delete v.ID, none⟩) ∧
    (reconcilePlan env W p st n).events.filter Event.isCreate = [] ∧
    (∀ v, L = [v] → v.PlatformID = "" →
      (reconcilePlan env W p st n).events.filter Event.isDelete = [⟨Call.Delete v.ID, none⟩]) ∧
    (∀ v, L = [v] → v.PlatformID ≠ "" →
      (reconcilePlan env W p st n).events.filter Event.isDelete = []) := by
  obtain ⟨hev, -⟩ := reconcilePlan_ok env W p st n L hL hok
  rw [hc, createIfMissing_false, List.append_nil] at hev
  have hdel : (reconcilePlan env W p st n).events.filter Event.isDelete =
      (L.filter (fun v => decide (v.PlatformID = ""))).map (fun v => ⟨Call.Delete v.ID, none⟩) := by
    rw [hev]
    simp only [List.filter_cons, Event.isDelete]
    rw [filter_isDelete_deleted, toDelete_false]
    rfl
  refine ⟨hdel, ?_, ?_, ?_⟩
  · rw [hev]
    simp only [List.filter_cons, Event.isCreate]
    simpa using filter_isCreate_deleted (L.filter (toDelete false))
  · intro v hv hpub
    subst hv
    rw [hdel]; simp [hpub]
  · intro v hv hpub
    subst hv
    rw [hdel]; simp [hpub]

/-- The statement of C4 at plan `B` of `sampleStore`, which has one public
row. -/
theorem other_plan_writes_witness :
    (reconcilePlan sampleEnv storeWarehouse planB sampleStore 0).events.filter Event.isDelete =
        [⟨Call.Delete "v2", none⟩] ∧
    (reconcilePlan sampleEnv storeWarehouse planB sampleStore 0).events.filter Event.isCreate = [] :=
  have h := other_plan_writes sampleEnv storeWarehouse planB sampleStore 0
    [⟨"v2", "", "B", 2, 2⟩] (by decide) rfl rfl
  ⟨h.2.2.1 ⟨"v2", "", "B", 2, 2⟩ rfl (by decide), h.2.1⟩

/-! ## What `Run` returns -/

theorem Run_next_error {σ : Type} (env : Env) (W : Warehouse σ)
    (next : Request → Except Error Response) (req : Request) (st : σ) (n : Nat) (err : Error)
    (h : next req = Except.error err) :
    Run env W next req st n = ⟨none, some err, [], st, n⟩ := by
  simp [Run, h]

theorem Run_next_ok {σ : Type} (env : Env) (W : Warehouse σ)
    (next : Request → Except Error Response) (req : Request) (st : σ) (n : Nat)
    (response : Response) (h : next req = Except.ok response) :
    Run env W next req st n =
      match (reconcile env W (env.GetString response.Body "id") st n).result with
      | Except.ok _ =>
        ⟨some response, none, (reconcile env W (env.GetString response.Body "id") st n).events,
          (reconcile env W (env.GetString response.Body "id") st n).store,
          (reconcile env W (env.GetString response.Body "id") st n).uuids⟩
      | Except.error err =>
        ⟨none, some err, (reconcile env W (env.GetString response.Body "id") st n).events, st,
          (reconcile env W (env.GetString response.Body "id") st n).uuids⟩ := by
  simp only [Run, h, InTransaction]
  cases (reconcile env W (env.GetString response.Body "id") st n).result <;> rfl

theorem InTransaction_result {σ α : Type} (st : σ) (f : σ → Step σ α) :
    (InTransaction st f).result = (f st).result := by
  simp only [InTransaction]
  cases (f st).result <;> rfl

/-- Claim C9.  If `next.Handle` fails, `Run` returns a nil response with that
error, issues no call and leaves the store as it was.  If `next.Handle`
succeeds, `Run` returns its response, unchanged, and a nil error when the
transaction returns no error, and a nil response with the error of the
transaction when it returns one.  So `Run` returns a response and a nil error
exactly when `next.Handle` succeeded with that response and the transaction
returned no error. -/
theorem run_response {σ : Type} (env : Env) (W : Warehouse σ)
    (next : Request → Except Error Response) (req : Request) (st : σ) (n : Nat) :
    (∀ err, next req = Except.error err →
      (Run env W next req st n).response = none ∧ (Run env W next req st n).err = some err ∧
      (Run env W next req st n).events = [] ∧ (Run env W next req st n).store = st) ∧
    (∀ response, next req = Except.ok response →
      ((InTransaction st (fun s => reconcile env W (env.GetString response.Body "id") s n)).result
          = Except.ok () →
        (Run env W next req st n).response = some response ∧
        (Run env W next req st n).err = none) ∧
      (∀ err,
        (InTransaction st (fun s => reconcile env W (env.GetString response.Body "id") s n)).result
          = Except.error err →
        (Run env W next req st n).response = none ∧
        (Run env W next req st n).err = some err)) ∧
    (∀ response,
      ((Run env W next req st n).response = some response ∧ (Run env W next req st n).err = none) ↔
      (next req = Except.ok response ∧
        (InTransaction st (fun s => reconcile env W (env.GetString response.Body "id") s n)).result
          = Except.ok ())) := by
  refine ⟨?_, ?_, ?_⟩
  · intro err h
    rw [Run_next_error env W next req st n err h]
    exact ⟨rfl, rfl, rfl, rfl⟩
  · intro response h
    rw [Run_next_ok env W next req st n response h, InTransaction_result]
    constructor
    · intro hr; rw [hr]; exact ⟨rfl, rfl⟩
    · intro err hr; rw [hr]; exact ⟨rfl, rfl⟩
  · intro response
    rw [InTransaction_result]
    cases hn : next req with
    | error e =>
      rw [Run_next_error env W next req st n e hn]
      simp
    | ok resp =>
      rw [Run_next_ok env W next req st n resp hn]
      cases hr : (reconcile env W (env.GetString resp.Body "id") st n).result with
      | error e =>
        simp only [reduceCtorEq, false_and, false_iff, not_and]
        intro hresp
        injection hresp with hresp
        subst hresp
        rw [hr]; simp
      | ok u =>
        simp only [Option.some.injEq, and_true, Except.ok.injEq]
        constructor
        · intro hresp; subst hresp; exact ⟨rfl, hr⟩
        · intro hresp; exact hresp.1

/-- The statement of C9 at a next handler that fails. -/
theorem run_response_witness :
    (Run sampleEnv storeWarehouse failingNext sampleRequest sampleStore 0).response = none ∧
    (Run sampleEnv storeWarehouse failingNext sampleRequest sampleStore 0).err =
      some (Error.Message "bad request") ∧
    (Run sampleEnv storeWarehouse failingNext sampleRequest sampleStore 0).events = [] ∧
    (Run sampleEnv storeWarehouse failingNext sampleRequest sampleStore 0).store = sampleStore :=
  (run_response sampleEnv storeWarehouse failingNext sampleRequest sampleStore 0).1
    (Error.Message "bad request") rfl

/-- The calls of a run and what it returns have the fail-stop shape. -/
theorem Run_failStop {σ : Type} (env : Env) (W : Warehouse σ)
    (next : Request → Except Error Response) (req : Request) (st : σ) (n : Nat)
    (response : Response) (h : next req = Except.ok response) :
    (Run env W next req st n).events = (reconcile env W (env.GetString response.Body "id") st n).events ∧
    (((reconcile env W (env.GetString response.Body "id") st n).result = Except.ok () ∧
        (Run env W next req st n).response = some response ∧
        (Run env W next req st n).err = none ∧
        (Run env W next req st n).store = (reconcile env W (env.GetString response.Body "id") st n).store ∧
        Clean (Run env W next req st n).events) ∨
      (∃ err pre ev, (reconcile env W (env.GetString response.Body "id") st n).result = Except.error err ∧
        (Run env W next req st n).response = none ∧
        (Run env W next req st n).err = some err ∧
        (Run env W next req st n).store = st ∧
        (Run env W next req st n).events = pre ++ [ev] ∧ Clean pre ∧ Explains ev err)) := by
  have hfs := reconcile_failStop env W (env.GetString response.Body "id") st n
  rw [Run_next_ok env W next req st n response h]
  cases hr : (reconcile env W (env.GetString response.Body "id") st n).result with
  | ok u =>
    rw [hr] at hfs
    exact ⟨rfl, Or.inl ⟨rfl, rfl, rfl, rfl, hfs⟩⟩
  | error err =>
    rw [hr] at hfs
    obtain ⟨pre, ev, h1, h2, h3⟩ := hfs
    exact ⟨rfl, Or.inr ⟨err, pre, ev, rfl, rfl, rfl, rfl, h1, h2, h3⟩⟩

theorem explains_failed {ev : Event} {err : Error} (h : Explains ev err) : ev.err ≠ none := by
  unfold Explains at h
  split at h
  · obtain ⟨e, he, -⟩ := h; rw [he]; simp
  · obtain ⟨e, he, -⟩ := h; rw [he]; simp
  · rw [h]; simp

/-! ## Failures -/

/-- Claim C6, as the code has it: a failed `Delete` or `Create` ends the run,
whatever the error is, `ErrNotFoundInStorage` and `ErrAlreadyExistsInStorage`
included.  If a call of a run returned an error, it is the last call the run
issued and every call before it succeeded, so no further visibility and no
further plan is processed; `Run` returns a nil response and a non-nil error,
which is the error of the `Delete` itself and, for a `Create`, what
`util.HandleStorageError` makes of the error. -/
theorem failed_write_aborts {σ : Type} (env : Env) (W : Warehouse σ)
    (next : Request → Except Error Response) (req : Request) (st : σ) (n : Nat) (ev : Event)
    (hev : ev ∈ (Run env W next req st n).events) (hfail : ev.err ≠ none) :
    (∃ pre, (Run env W next req st n).events = pre ++ [ev] ∧ Clean pre) ∧
    (Run env W next req st n).response = none ∧
    (Run env W next req st n).err ≠ none ∧
    (∀ id, ev.call = Call.Delete id → (Run env W next req st n).err = ev.err) ∧
    (∀ v e, ev.call = Call.Create v → ev.err = some e →
      (Run env W next req st n).err = some (Error.HandleStorageError e "visibility" v.ID)) := by
  cases hn : next req with
  | error e =>
    rw [Run_next_error env W next req st n e hn] at hev
    cases hev
  | ok response =>
    obtain ⟨-, hcase⟩ := Run_failStop env W next req st n response hn
    rcases hcase with ⟨-, -, -, -, hclean⟩ | ⟨err, pre, last, -, hresp, herr, -, hevs, hpre, hex⟩
    · exact absurd (hclean ev hev) hfail
    · rw [hevs] at hev
      rcases List.mem_append.1 hev with hin | hin
      · exact absurd (hpre ev hin) hfail
      · have hlast : ev = last := by simpa using hin
        subst hlast
        refine ⟨⟨pre, hevs, hpre⟩, hresp, by rw [herr]; simp, ?_, ?_⟩
        · intro id hid
          unfold Explains at hex
          rw [hid] at hex
          rw [herr, hex]
        · intro v e hv he
          unfold Explains at hex
          rw [hv] at hex
          obtain ⟨e1, he1, herr1⟩ := hex
          rw [he] at he1
          injection he1 with he1
          subst he1
          rw [herr, herr1]

/-- The amended C6 at a `Delete` that returns `ErrNotFoundInStorage`. -/
theorem failed_write_aborts_witness :
    (Run sampleEnv racingWarehouse sampleNext sampleRequest sampleStore 0).response = none ∧
    (Run sampleEnv racingWarehouse sampleNext sampleRequest sampleStore 0).err ≠ none :=
  have h := failed_write_aborts sampleEnv racingWarehouse sampleNext sampleRequest sampleStore 0
    ⟨Call.Delete "v1", some Error.ErrNotFoundInStorage⟩ (by decide) (by decide)
  ⟨h.2.1, h.2.2.1⟩

/-- Claim C6 fails on the code.  A `Delete` that returns `ErrNotFoundInStorage`
ends the run: plan `B` is never looked at and `Run` returns that error and no
response.  A `Create` that returns `ErrAlreadyExistsInStorage` ends the run as
well, and `Run` returns what `util.HandleStorageError` makes of it. -/
theorem conflict_not_tolerated :
    (Run sampleEnv racingWarehouse sampleNext sampleRequest sampleStore 0).events =
      [⟨Call.ListWithServicePlansByBrokerID "b1", none⟩, ⟨Call.ListByServicePlanID "A", none⟩,
        ⟨Call.Delete "v1", some Error.ErrNotFoundInStorage⟩] ∧
    (Run sampleEnv racingWarehouse sampleNext sampleRequest sampleStore 0).response = none ∧
    (Run sampleEnv racingWarehouse sampleNext sampleRequest sampleStore 0).err =
      some Error.ErrNotFoundInStorage ∧
    (Run sampleEnv racingWarehouse sampleNext sampleRequest emptyStore 0).events =
      [⟨Call.ListWithServicePlansByBrokerID "b1", none⟩, ⟨Call.ListByServicePlanID "A", none⟩,
        ⟨Call.NewV4, none⟩,
        ⟨Call.Create ⟨"uuid-0", "", "A", 100, 100⟩, some Error.ErrAlreadyExistsInStorage⟩] ∧
    (Run sampleEnv racingWarehouse sampleNext sampleRequest emptyStore 0).response = none ∧
    (Run sampleEnv racingWarehouse sampleNext sampleRequest emptyStore 0).err =
      some (Error.HandleStorageError Error.ErrAlreadyExistsInStorage "visibility" "uuid-0") := by
  decide

/-- Claim C7.  If any call of the run returned an error, be it the catalog
listing, `ListByServicePlanID`, `Delete`, `uuid.NewV4` or `Create`, and for
whichever plan, then the function run in the transaction returns an error,
`Run` returns it, and, `InTransaction` committing only on `nil`, the persisted
state after `Run` is the state before it. -/
theorem failure_rolls_back {σ : Type} (env : Env) (W : Warehouse σ)
    (next : Request → Except Error Response) (req : Request) (st : σ) (n : Nat) (ev : Event)
    (hev : ev ∈ (Run env W next req st n).events) (hfail : ev.failed = true) :
    (∃ response err, next req = Except.ok response ∧
      (reconcile env W (env.GetString response.Body "id") st n).result = Except.error err ∧
      (Run env W next req st n).err = some err) ∧
    (Run env W next req st n).store = st := by
  have hne : ev.err ≠ none := by
    intro h
    simp [Event.failed, h] at hfail
  cases hn : next req with
  | error e =>
    rw [Run_next_error env W next req st n e hn] at hev
    cases hev
  | ok response =>
    obtain ⟨-, hcase⟩ := Run_failStop env W next req st n response hn
    rcases hcase with ⟨-, -, -, -, hclean⟩ | ⟨err, pre, last, hres, -, herr, hstore, -, -, -⟩
    · exact absurd (hclean ev hev) hne
    · exact ⟨⟨response, err, rfl, hres, herr⟩, hstore⟩

/-- The statement of C7 at a run in which `uuid.NewV4` fails after a row was
deleted. -/
theorem failure_rolls_back_witness :
    (Run failingUuidEnv storeWarehouse sampleNext sampleRequest sampleStore 0).store = sampleStore :=
  (failure_rolls_back failingUuidEnv storeWarehouse sampleNext sampleRequest sampleStore 0
    ⟨Call.NewV4, some (Error.Message "no entropy")⟩ (by decide) (by decide)).2

/-- Every call of the visibility loop, whether it ends with an error or not,
is the `Delete` of a listed row the decision tells it to delete. -/
theorem visibilityLoop_events {σ : Type} (W : Warehouse σ) (isC : Bool) (n : Nat) :
    ∀ (L : List Visibility) (hp : Bool) (st : σ),
      ∀ ev ∈ (visibilityLoop W isC n L hp st).events,
        ∃ v ∈ L, toDelete isC v = true ∧ ev.call = Call.Delete v.ID := by
  intro L
  induction L with
  | nil => intro hp st ev hev; simp [visibilityLoop] at hev
  | cons v rest ih =>
    intro hp st ev hev
    have lift : (∃ w ∈ rest, toDelete isC w = true ∧ ev.call = Call.Delete w.ID) →
        ∃ w ∈ v :: rest, toDelete isC w = true ∧ ev.call = Call.Delete w.ID := by
      rintro ⟨w, hw, h⟩
      exact ⟨w, List.mem_cons_of_mem _ hw, h⟩
    have del : toDelete isC v = true →
        ev ∈ (match W.Delete st v.ID with
          | Except.error err =>
            (⟨[⟨Call.Delete v.ID, some err⟩], st, n, Except.error err⟩ : Step σ Bool)
          | Except.ok st1 =>
            ⟨⟨Call.Delete v.ID, none⟩ :: (visibilityLoop W isC n rest hp st1).events,
              (visibilityLoop W isC n rest hp st1).store,
              (visibilityLoop W isC n rest hp st1).uuids,
              (visibilityLoop W isC n rest hp st1).result⟩).events →
        ∃ w ∈ v :: rest, toDelete isC w = true ∧ ev.call = Call.Delete w.ID := by
      intro htd hin
      cases hd : W.Delete st v.ID with
      | error e =>
        rw [hd] at hin
        simp only [List.mem_singleton] at hin
        subst hin
        exact ⟨v, List.mem_cons_self _ _, htd, rfl⟩
      | ok st1 =>
        rw [hd] at hin
        rcases List.mem_cons.1 hin with rfl | hin
        · exact ⟨v, List.mem_cons_self _ _, htd, rfl⟩
        · exact lift (ih hp st1 ev hin)
    cases isC with
    | true =>
      by_cases hv : v.PlatformID = ""
      · simp only [visibilityLoop, hv, ↓reduceIte] at hev
        exact lift (ih true st ev hev)
      · simp only [visibilityLoop, hv, ↓reduceIte] at hev
        exact del (by simp [toDelete, hv]) hev
    | false =>
      by_cases hv : v.PlatformID = ""
      · simp only [visibilityLoop, hv, ↓reduceIte, Bool.false_eq_true] at hev
        exact del (by simp [toDelete, hv]) hev
      · simp only [visibilityLoop, hv, ↓reduceIte, Bool.false_eq_true] at hev
        exact lift (ih hp st ev hev)

/-- Every call of the create part, whether it ends with an error or not, is
made for a plan decided complementary, and is `uuid.NewV4` or the `Create` of
the public row of the plan. -/
theorem createIfMissing_events {σ : Type} (env : Env) (W : Warehouse σ) (p : ServicePlan)
    (isC hp : Bool) (st : σ) (n : Nat) :
    ∀ ev ∈ (createIfMissing env W p isC hp st n).events,
      isC = true ∧ (ev.call = Call.NewV4 ∨
        ∃ u, ev.call = Call.Create (newVisibility p u (env.Now n))) := by
  intro ev hev
  unfold createIfMissing at hev
  split at hev
  · rename_i hc
    have hisC : isC = true := by
      simp only [Bool.and_eq_true] at hc
      exact hc.1
    refine ⟨hisC, ?_⟩
    cases hu : env.NewV4 n with
    | error e =>
      rw [hu] at hev
      simp only [List.mem_singleton] at hev
      subst hev
      exact Or.inl rfl
    | ok uuid =>
      rw [hu] at hev
      simp only at hev
      cases hcr : W.Create st (newVisibility p uuid (env.Now n)) with
      | error e =>
        rw [hcr] at hev
        simp only [List.mem_cons, List.mem_singleton, List.not_mem_nil, or_false] at hev
        rcases hev with rfl | rfl
        · exact Or.inl rfl
        · exact Or.inr ⟨uuid, rfl⟩
      | ok a =>
        rw [hcr] at hev
        simp only [List.mem_cons, List.mem_singleton, List.not_mem_nil, or_false] at hev
        rcases hev with rfl | rfl
        · exact Or.inl rfl
        · exact Or.inr ⟨uuid, rfl⟩
  · cases hev

/-- Every call of the plan body, whether it ends with an error or not, in
terms of the decision `b` for the plan and the rows `L` the listing returned:
the listing itself, the `Delete` of a row of `L` with a non-empty `PlatformID`
if `b` is `true` and with an empty one if `b` is `false`, and, only if `b` is
`true`, `uuid.NewV4` and the `Create` of the public row of the plan. -/
theorem reconcilePlan_events {σ : Type} (env : Env) (W : Warehouse σ) (p : ServicePlan) (st : σ)
    (n : Nat) (L : List Visibility) (hL : W.ListByServicePlanID st p.ID = Except.ok L) :
    ∀ ev ∈ (reconcilePlan env W p st n).events,
      ev.call = Call.ListByServicePlanID p.ID ∨
      (∃ v ∈ L, toDelete (env.GetBool p.Metadata "complementary") v = true ∧
        ev.call = Call.Delete v.ID) ∨
      (env.GetBool p.Metadata "complementary" = true ∧ (ev.call = Call.NewV4 ∨
        ∃ u, ev.call = Call.Create (newVisibility p u (env.Now n)))) := by
  intro ev hev
  simp only [reconcilePlan, hL] at hev
  cases hr : (visibilityLoop W (env.GetBool p.Metadata "complementary") n L false st).result with
  | error e =>
    rw [hr] at hev
    rcases List.mem_cons.1 hev with rfl | hev
    · exact Or.inl rfl
    · exact Or.inr (Or.inl (visibilityLoop_events W _ n L false st ev hev))
  | ok hp =>
    rw [hr] at hev
    obtain ⟨-, -, hn⟩ := visibilityLoop_ok W _ n L false st hp hr
    rw [hn] at hev
    rcases List.mem_cons.1 hev with rfl | hev
    · exact Or.inl rfl
    · rcases List.mem_append.1 hev with hev | hev
      · exact Or.inr (Or.inl (visibilityLoop_events W _ n L false st ev hev))
      · exact Or.inr (Or.inr (createIfMissing_events env W p _ _ _ n ev hev))

/-- The plan body reads the plan through its identity and the decision
only. -/
theorem reconcilePlan_congr {σ : Type} (env : Env) (W : Warehouse σ) (p q : ServicePlan) (st : σ)
    (n : Nat) (hid : p.ID = q.ID)
    (hb : env.GetBool p.Metadata "complementary" = env.GetBool q.Metadata "complementary") :
    reconcilePlan env W p st n = reconcilePlan env W q st n := by
  simp only [reconcilePlan, createIfMissing, newVisibility, hid, hb]

theorem failed_of_failStop {α : Type} {events : List Event} {err : Error}
    (h : @FailStop α events (Except.error err)) :
    ∃ ev, ev ∈ events ∧ ev.err ≠ none ∧ Explains ev err := by
  obtain ⟨pre, ev, hevs, -, hex⟩ := h
  exact ⟨ev, by rw [hevs]; simp, explains_failed hex, hex⟩

/-- Claim C8, as the code has it: there is no policy evaluation error; the
decision for a plan is the boolean `gjson` gives for the `complementary` entry
of its metadata, whatever the metadata is.  Two plans with the same identity
for which that boolean is the same are processed alike.  If it is `false` the
plan is treated as not public: besides the listing, every call for it is the
`Delete` of a listed row with empty `PlatformID`.  If it is `true` the plan is
treated as public: every `Delete` is of a listed row with a non-empty
`PlatformID`, and the other calls are `uuid.NewV4` and the `Create` of its
public row.  An error of the plan body, or of the function handed to the
transaction, is the error a call of it returned: a storage call or
`uuid.NewV4`. -/
theorem decision_is_the_flag {σ : Type} (env : Env) (W : Warehouse σ) (p q : ServicePlan)
    (st : σ) (n : Nat) (brokerID : String) :
    (p.ID = q.ID →
      env.GetBool p.Metadata "complementary" = env.GetBool q.Metadata "complementary" →
      reconcilePlan env W p st n = reconcilePlan env W q st n) ∧
    (env.GetBool p.Metadata "complementary" = false →
      ∀ L, W.ListByServicePlanID st p.ID = Except.ok L →
      ∀ ev ∈ (reconcilePlan env W p st n).events,
        ev.call = Call.ListByServicePlanID p.ID ∨
          ∃ v ∈ L, v.PlatformID = "" ∧ ev.call = Call.Delete v.ID) ∧
    (env.GetBool p.Metadata "complementary" = true →
      ∀ L, W.ListByServicePlanID st p.ID = Except.ok L →
      ∀ ev ∈ (reconcilePlan env W p st n).events,
        ev.call = Call.ListByServicePlanID p.ID ∨
          (∃ v ∈ L, v.PlatformID ≠ "" ∧ ev.call = Call.Delete v.ID) ∨
          ev.call = Call.NewV4 ∨
          ∃ u, ev.call = Call.Create ⟨u, "", p.ID, env.Now n, env.Now n⟩) ∧
    (∀ err, (reconcilePlan env W p st n).result = Except.error err →
      ∃ ev, ev ∈ (reconcilePlan env W p st n).events ∧ ev.err ≠ none ∧ Explains ev err) ∧
    (∀ err, (reconcile env W brokerID st n).result = Except.error err →
      ∃ ev, ev ∈ (reconcile env W brokerID st n).events ∧ ev.err ≠ none ∧ Explains ev err) := by
  refine ⟨reconcilePlan_congr env W p q st n, ?_, ?_, ?_, ?_⟩
  · intro hb L hL ev hev
    rcases reconcilePlan_events env W p st n L hL ev hev with h | ⟨v, hv, htd, hc⟩ | ⟨ht, -⟩
    · exact Or.inl h
    · rw [hb] at htd
      exact Or.inr ⟨v, hv, by simpa [toDelete] using htd, hc⟩
    · rw [hb] at ht; cases ht
  · intro hb L hL ev hev
    rcases reconcilePlan_events env W p st n L hL ev hev with h | ⟨v, hv, htd, hc⟩ | ⟨-, h⟩
    · exact Or.inl h
    · rw [hb] at htd
      exact Or.inr (Or.inl ⟨v, hv, by simpa [toDelete] using htd, hc⟩)
    · rcases h with h | ⟨u, h⟩
      · exact Or.inr (Or.inr (Or.inl h))
      · exact Or.inr (Or.inr (Or.inr ⟨u, h⟩))
  · intro err herr
    have h := reconcilePlan_failStop env W p st n
    rw [herr] at h
    exact failed_of_failStop h
  · intro err herr
    have h := reconcile_failStop env W brokerID st n
    rw [herr] at h
    exact failed_of_failStop h

/-- The amended C8 at plan `B` of `sampleStore`, whose metadata has no
`complementary` entry: it is processed like a plan with an explicit `false`. -/
theorem decision_is_the_flag_witness :
    reconcilePlan sampleEnv storeWarehouse planB sampleStore 0 =
      reconcilePlan sampleEnv storeWarehouse ⟨"B", "plan-b", notComplementaryMetadata⟩
        sampleStore 0 :=
  (decision_is_the_flag sampleEnv storeWarehouse planB ⟨"B", "plan-b", notComplementaryMetadata⟩
    sampleStore 0 "b1").1 rfl (by decide)

/-- Claim C8 fails on the code.  The metadata of plan `B` is `{}`, with no
`complementary` entry; the function handed to the transaction ends without an
error, the run signals no error, returns the response of the next handler and
treats the plan as not public: its public visibility `v2` is deleted. -/
theorem malformed_metadata_is_not_public :
    planB.Metadata = emptyMetadata ∧
    (reconcile sampleEnv storeWarehouse "b1" sampleStore 0).result = Except.ok () ∧
    (Run sampleEnv storeWarehouse sampleNext sampleRequest sampleStore 0).err = none ∧
    (Run sampleEnv storeWarehouse sampleNext sampleRequest sampleStore 0).response =
      some ⟨200, brokerBody⟩ ∧
    (⟨Call.Delete "v2", none⟩ : Event) ∈
      (Run sampleEnv storeWarehouse sampleNext sampleRequest sampleStore 0).events ∧
    (Run sampleEnv storeWarehouse sampleNext sampleRequest sampleStore 0).store.visibilities =
      [⟨"uuid-0", "", "A", 100, 100⟩] :=
  ⟨rfl, rfl, by decide⟩

/-! ## The filter over the visibility store -/

theorem reconcileCatalog_eq_plans {σ : Type} (env : Env) (W : Warehouse σ) :
    ∀ (catalog : List ServiceOffering) (st : σ) (n : Nat),
      reconcileCatalog env W catalog st n = reconcilePlans env W (plansOf catalog) st n := by
  have happ : ∀ (xs ys : List ServicePlan) (st : σ) (n : Nat),
      reconcilePlans env W (xs ++ ys) st n =
        match (reconcilePlans env W xs st n).result with
        | Except.error err =>
          ⟨(reconcilePlans env W xs st n).events, (reconcilePlans env W xs st n).store,
            (reconcilePlans env W xs st n).uuids, Except.error err⟩
        | Except.ok _ =>
          ⟨(reconcilePlans env W xs st n).events ++
              (reconcilePlans env W ys (reconcilePlans env W xs st n).store
                (reconcilePlans env W xs st n).uuids).events,
            (reconcilePlans env W ys (reconcilePlans env W xs st n).store
                (reconcilePlans env W xs st n).uuids).store,
            (reconcilePlans env W ys (reconcilePlans env W xs st n).store
                (reconcilePlans env W xs st n).uuids).uuids,
            (reconcilePlans env W ys (reconcilePlans env W xs st n).store
                (reconcilePlans env W xs st n).uuids).result⟩ := by
    intro xs
    induction xs with
    | nil => intro ys st n; simp [reconcilePlans]
    | cons p rest ih =>
      intro ys st n
      simp only [List.cons_append, reconcilePlans]
      cases hr : (reconcilePlan env W p st n).result with
      | error e => rfl
      | ok u =>
        simp only [List.append_eq]
        rw [ih]
        cases (reconcilePlans env W rest (reconcilePlan env W p st n).store
          (reconcilePlan env W p st n).uuids).result with
        | error e => rfl
        | ok u => simp [List.append_assoc]
  intro catalog
  induction catalog with
  | nil => intro st n; rfl
  | cons o rest ih =>
    intro st n
    simp only [reconcileCatalog, plansOf]
    rw [happ]
    cases (reconcilePlans env W o.Plans st n).result with
    | error e => rfl
    | ok u => simp only; rw [ih]

/-- The visibility loop over the store, in closed form. -/
theorem visibilityLoop_store (isC : Bool) (n : Nat) :
    ∀ (L : List Visibility) (hp : Bool) (st : Store),
      visibilityLoop storeWarehouse isC n L hp st =
        ⟨(L.filter (toDelete isC)).map deleted,
          { st with visibilities := (st.visibilities.filter
              (fun v => decide (v.ID ∉ (L.filter (toDelete isC)).map (fun w => w.ID)))) },
          n, Except.ok (hp || (isC && L.any (fun v => decide (v.PlatformID = ""))))⟩ := by
  intro L
  induction L with
  | nil => intro hp st; simp [visibilityLoop]
  | cons v rest ih =>
    intro hp st
    have hdel : ∀ st : Store, storeWarehouse.Delete st v.ID =
        Except.ok { st with visibilities := st.visibilities.filter (fun w => w.ID ≠ v.ID) } :=
      fun _ => rfl
    cases isC with
    | true =>
      by_cases hv : v.PlatformID = ""
      · simp only [visibilityLoop, hv, ↓reduceIte]
        rw [ih]
        simp [toDelete, hv]
      · have htd : toDelete true v = true := by simp [toDelete, hv]
        simp only [visibilityLoop, hv, ↓reduceIte, hdel]
        rw [ih]
        simp only [List.filter_cons, htd, ↓reduceIte, List.map_cons, List.filter_filter, hv,
          decide_False, Bool.or_false, Bool.false_or, List.any_cons]
        refine congrArg (fun x => Step.mk _ (Store.mk _ x) _ _) ?_
        apply List.filter_congr
        intro a _
        by_cases h1 : a.ID = v.ID <;> simp [h1]
    | false =>
      by_cases hv : v.PlatformID = ""
      · have htd : toDelete false v = true := by simp [toDelete, hv]
        simp only [visibilityLoop, hv, ↓reduceIte, Bool.false_eq_true, hdel]
        rw [ih]
        simp only [List.filter_cons, htd, ↓reduceIte, List.map_cons, List.filter_filter,
          Bool.false_and, Bool.or_false]
        refine congrArg (fun x => Step.mk _ (Store.mk _ x) _ _) ?_
        apply List.filter_congr
        intro a _
        by_cases h1 : a.ID = v.ID <;> simp [h1]
      · simp only [visibilityLoop, hv, ↓reduceIte, Bool.false_eq_true]
        rw [ih]
        simp [toDelete, hv]

theorem any_rowsOf (rows : List Visibility) (planID : String) :
    (rowsOf rows planID).any (fun v => decide (v.PlatformID = "")) = rows.any (isPublicFor planID) := by
  induction rows with
  | nil => rfl
  | cons v rest ih =>
    unfold rowsOf at ih ⊢
    by_cases h : v.ServicePlanID = planID
    · simp only [List.filter_cons, h, decide_True, ↓reduceIte, List.any_cons, ih, isPublicFor,
        Bool.true_and]
    · simp only [List.filter_cons, h, decide_False, ↓reduceIte, List.any_cons, ih, isPublicFor,
        Bool.false_and, Bool.false_or, Bool.false_eq_true]

/-- The plan body over the store, in closed form. -/
theorem reconcilePlan_store (env : Env) (p : ServicePlan) (st : Store) (n : Nat) :
    reconcilePlan env storeWarehouse p st n =
      ⟨⟨Call.ListByServicePlanID p.ID, none⟩ ::
          (((rowsOf st.visibilities p.ID).filter (toDelete (isComplementary env p))).map deleted ++
            (createIfMissing env storeWarehouse p (isComplementary env p)
              (isComplementary env p && st.visibilities.any (isPublicFor p.ID))
              (st.afterLoop env p) n).events),
        (createIfMissing env storeWarehouse p (isComplementary env p)
          (isComplementary env p && st.visibilities.any (isPublicFor p.ID))
          (st.afterLoop env p) n).store,
        (createIfMissing env storeWarehouse p (isComplementary env p)
          (isComplementary env p && st.visibilities.any (isPublicFor p.ID))
          (st.afterLoop env p) n).uuids,
        (createIfMissing env storeWarehouse p (isComplementary env p)
          (isComplementary env p && st.visibilities.any (isPublicFor p.ID))
          (st.afterLoop env p) n).result⟩ := by
  have hL : storeWarehouse.ListByServicePlanID st p.ID = Except.ok (rowsOf st.visibilities p.ID) :=
    rfl
  simp only [reconcilePlan, hL, visibilityLoop_store, Bool.false_or, any_rowsOf]
  rfl

/-- The create part over the store, when it ends without an error. -/
theorem createIfMissing_store (env : Env) (p : ServicePlan) (isC hp : Bool) (st : Store) (n : Nat)
    (hok : (createIfMissing env storeWarehouse p isC hp st n).result = Except.ok ()) :
    ((isC && !hp) = false ∧
        createIfMissing env storeWarehouse p isC hp st n = ⟨[], st, n, Except.ok ()⟩) ∨
    ((isC && !hp) = true ∧ ∃ u, env.NewV4 n = Except.ok u ∧ (∀ w ∈ st.visibilities, w.ID ≠ u) ∧
        createIfMissing env storeWarehouse p isC hp st n =
          ⟨[⟨Call.NewV4, none⟩, ⟨Call.Create (newVisibility p u (env.Now n)), none⟩],
            { st with visibilities := st.visibilities ++ [newVisibility p u (env.Now n)] },
            n + 1, Except.ok ()⟩) := by
  rcases Bool.eq_false_or_eq_true (isC && !hp) with hc | hc
  · right
    refine ⟨hc, ?_⟩
    simp only [createIfMissing, hc, ↓reduceIte] at hok ⊢
    cases hu : env.NewV4 n with
    | error e => simp [hu] at hok
    | ok u =>
      simp only [hu] at hok ⊢
      refine ⟨u, rfl, ?_⟩
      have hcr : storeWarehouse.Create st (newVisibility p u (env.Now n)) =
          Store.Create st (newVisibility p u (env.Now n)) := rfl
      rw [hcr] at hok ⊢
      unfold Store.Create at hok ⊢
      by_cases h1 : (st.visibilities.any (fun w => decide (w.ID = (newVisibility p u (env.Now n)).ID))) = true
      · simp [h1] at hok
      · simp only [h1, Bool.false_eq_true, ↓reduceIte] at hok ⊢
        by_cases h2 : (newVisibility p u (env.Now n)).PlatformID = "" ∧
            (st.visibilities.any (fun w => decide (w.ServicePlanID =
              (newVisibility p u (env.Now n)).ServicePlanID ∧ w.PlatformID = ""))) = true
        · rw [if_pos h2] at hok
          simp at hok
        · rw [if_neg h2]
          simp only [and_true]
          intro w hw hwu
          apply h1
          simp only [List.any_eq_true, decide_eq_true_eq]
          exact ⟨w, hw, by simpa [newVisibility] using hwu⟩
  · left
    refine ⟨hc, ?_⟩
    simp [createIfMissing, hc]

theorem mem_map_filter_of_unique {rows : List Visibility} (h : UniqueIDs rows)
    (q : Visibility → Bool) {a : Visibility} (ha : a ∈ rows) :
    a.ID ∈ (rows.filter q).map (fun w => w.ID) ↔ q a = true := by
  constructor
  · intro hin
    obtain ⟨w, hw, hwa⟩ := List.mem_map.1 hin
    obtain ⟨hwl, hq⟩ := List.mem_filter.1 hw
    have := List.inj_on_of_nodup_map h hwl ha hwa
    rw [← this]; exact hq
  · intro hq
    exact List.mem_map.2 ⟨a, List.mem_filter.2 ⟨ha, hq⟩, rfl⟩

/-- With unique identities the visibility loop removes exactly the rows of the
plan it deletes. -/
theorem afterLoop_unique (env : Env) (p : ServicePlan) (st : Store)
    (h : UniqueIDs st.visibilities) :
    (st.afterLoop env p).visibilities = st.visibilities.filter (keeps env p) := by
  unfold Store.afterLoop rowsOf
  simp only [List.filter_filter]
  apply List.filter_congr
  intro a ha
  have := mem_map_filter_of_unique h
    (fun a => toDelete (isComplementary env p) a && decide (a.ServicePlanID = p.ID)) ha
  by_cases hin : a.ID ∈ (st.visibilities.filter
      (fun a => toDelete (isComplementary env p) a && decide (a.ServicePlanID = p.ID))).map
        (fun w => w.ID)
  · have hq := this.1 hin
    simp only [hin, not_true_eq_false, decide_False, keeps]
    simp only [Bool.and_eq_true, decide_eq_true_eq] at hq
    simp [hq.1, hq.2]
  · have hq : ¬ _ := fun hq => hin (this.2 hq)
    simp only [hin, not_false_eq_true, decide_True, keeps]
    simp only [Bool.and_eq_true, decide_eq_true_eq, not_and] at hq
    by_cases hp : a.ServicePlanID = p.ID
    · have : toDelete (isComplementary env p) a = false := by
        cases htd : toDelete (isComplementary env p) a with
        | false => rfl
        | true => exact absurd hp (hq htd)
      simp [hp, this]
    · simp [hp]

theorem uniqueIDs_filter {rows : List Visibility} (q : Visibility → Bool) (h : UniqueIDs rows) :
    UniqueIDs (rows.filter q) :=
  List.Nodup.sublist ((List.filter_sublist rows).map _) h

theorem needsPublic_eq (env : Env) (rows : List Visibility) (p : ServicePlan) :
    (isComplementary env p && !(isComplementary env p && rows.any (isPublicFor p.ID))) =
      needsPublic env rows p := by
  unfold needsPublic
  cases isComplementary env p <;> simp

/-- One plan processed over a store with unique identities: the rows the loop
deletes are gone, the others stay in place, and a public row of the plan is
appended exactly if the plan is complementary and had none. -/
theorem reconcilePlan_step (env : Env) (p : ServicePlan) (st : Store) (n : Nat)
    (hU : UniqueIDs st.visibilities)
    (hok : (reconcilePlan env storeWarehouse p st n).result = Except.ok ()) :
    ∃ cr, (reconcilePlan env storeWarehouse p st n).store.visibilities =
        st.visibilities.filter (keeps env p) ++ cr ∧
      (reconcilePlan env storeWarehouse p st n).store.offerings = st.offerings ∧
      UniqueIDs (reconcilePlan env storeWarehouse p st n).store.visibilities ∧
      cr.map withoutGenerated =
        (if needsPublic env st.visibilities p then [newVisibility p "" 0] else []) ∧
      (∀ v ∈ cr, v.ServicePlanID = p.ID ∧ v.PlatformID = "") := by
  rw [reconcilePlan_store] at hok ⊢
  simp only at hok ⊢
  rcases createIfMissing_store env p _ _ _ n hok with ⟨hc, heq⟩ | ⟨hc, u, -, hfresh, heq⟩
  · rw [needsPublic_eq] at hc
    rw [heq]
    refine ⟨[], ?_, rfl, ?_, ?_, ?_⟩
    · simp only [List.append_nil]; exact afterLoop_unique env p st hU
    · simp only; rw [afterLoop_unique env p st hU]; exact uniqueIDs_filter _ hU
    · simp [hc]
    · intro v hv; cases hv
  · rw [needsPublic_eq] at hc
    rw [heq]
    refine ⟨[newVisibility p u (env.Now n)], ?_, rfl, ?_, ?_, ?_⟩
    · simp only; rw [afterLoop_unique env p st hU]
    · simp only
      unfold UniqueIDs
      rw [List.map_append, List.nodup_append]
      refine ⟨uniqueIDs_filter _ hU, by simp, ?_⟩
      intro a ha hb
      obtain ⟨w, hw, hwa⟩ := List.mem_map.1 ha
      simp only [List.map_cons, List.map_nil, List.mem_singleton, newVisibility] at hb
      exact hfresh w hw (by rw [hwa, hb])
    · simp [hc, withoutGenerated, newVisibility]
    · intro v hv
      simp only [List.mem_singleton] at hv
      subst hv
      exact ⟨rfl, rfl⟩

theorem publicCount_filter_le (rows : List Visibility) (q : Visibility → Bool) (pid : String) :
    publicCount (rows.filter q) pid ≤ publicCount rows pid := by
  unfold publicCount
  rw [List.filter_filter]
  have : (rows.filter (fun a => isPublicFor pid a && q a)).Sublist (rows.filter (isPublicFor pid)) := by
    have h := List.filter_sublist (p := q) (rows.filter (isPublicFor pid))
    rw [List.filter_filter] at h
    have e : rows.filter (fun a => q a && isPublicFor pid a) =
        rows.filter (fun a => isPublicFor pid a && q a) :=
      List.filter_congr (fun a _ => Bool.and_comm _ _)
    rw [e] at h
    exact h
  exact this.length_le

theorem publicCount_append (xs ys : List Visibility) (pid : String) :
    publicCount (xs ++ ys) pid = publicCount xs pid + publicCount ys pid := by
  simp [publicCount, List.filter_append]

theorem publicCount_eq_zero_of_any {rows : List Visibility} {pid : String}
    (h : rows.any (isPublicFor pid) = false) : publicCount rows pid = 0 := by
  unfold publicCount
  rw [List.length_eq_zero, List.filter_eq_nil_iff]
  intro a ha hp
  have : rows.any (isPublicFor pid) = true := List.any_eq_true.2 ⟨a, ha, hp⟩
  rw [h] at this
  cases this

/-- One plan processed over any store: a plan that has at most one public row
still has at most one, and a plan that is not complementary has none left. -/
theorem reconcilePlan_count (env : Env) (p : ServicePlan) (st : Store) (n : Nat)
    (hok : (reconcilePlan env storeWarehouse p st n).result = Except.ok ()) (pid : String) :
    (publicCount st.visibilities pid ≤ 1 →
      publicCount (reconcilePlan env storeWarehouse p st n).store.visibilities pid ≤ 1) ∧
    (p.ID = pid → isComplementary env p = false →
      publicCount (reconcilePlan env storeWarehouse p st n).store.visibilities pid = 0) ∧
    (reconcilePlan env storeWarehouse p st n).store.offerings = st.offerings := by
  rw [reconcilePlan_store] at hok ⊢
  simp only at hok ⊢
  have hle : publicCount (st.afterLoop env p).visibilities pid ≤ publicCount st.visibilities pid :=
    publicCount_filter_le _ _ _
  rcases createIfMissing_store env p _ _ _ n hok with ⟨hc, heq⟩ | ⟨hc, u, -, -, heq⟩
  · rw [heq]
    refine ⟨fun h => le_trans hle h, ?_, rfl⟩
    intro hpid hnc
    subst hpid
    simp only
    unfold publicCount
    rw [List.length_eq_zero, List.filter_eq_nil_iff]
    intro a ha hp
    unfold Store.afterLoop at ha
    simp only [List.mem_filter, decide_eq_true_eq] at ha
    apply ha.2
    refine List.mem_map.2 ⟨a, ?_, rfl⟩
    unfold isPublicFor at hp
    simp only [Bool.and_eq_true, decide_eq_true_eq] at hp
    unfold rowsOf
    rw [List.mem_filter, List.mem_filter]
    refine ⟨⟨ha.1, by simp [hp.1]⟩, ?_⟩
    simp [toDelete, hnc, hp.2]
  · rw [needsPublic_eq] at hc
    rw [heq]
    unfold needsPublic at hc
    simp only [Bool.and_eq_true, Bool.not_eq_true'] at hc
    refine ⟨?_, ?_, rfl⟩
    · intro h
      simp only
      rw [publicCount_append]
      by_cases hpid : p.ID = pid
      · subst hpid
        have h0 := publicCount_eq_zero_of_any hc.2
        have : publicCount (st.afterLoop env p).visibilities p.ID = 0 := by omega
        rw [this]
        simp [publicCount, isPublicFor, newVisibility]
      · have : publicCount [newVisibility p u (env.Now n)] pid = 0 := by
          simp [publicCount, isPublicFor, newVisibility, hpid]
        rw [this]; omega
    · intro _ hnc
      rw [hnc] at hc
      exact absurd hc.1 (by simp)

/-- A plan whose rows are as the filter wants them is left alone: nothing is
deleted, nothing is created. -/
theorem reconcilePlan_settled (env : Env) (p : ServicePlan) (st : Store) (n : Nat)
    (hk : ∀ v ∈ st.visibilities, keeps env p v = true)
    (hn : needsPublic env st.visibilities p = false) :
    reconcilePlan env storeWarehouse p st n =
      ⟨[⟨Call.ListByServicePlanID p.ID, none⟩], st, n, Except.ok ()⟩ := by
  have hnil : (rowsOf st.visibilities p.ID).filter (toDelete (isComplementary env p)) = [] := by
    rw [List.filter_eq_nil_iff]
    intro a ha htd
    unfold rowsOf at ha
    simp only [List.mem_filter, decide_eq_true_eq] at ha
    have := hk a ha.1
    simp [keeps, ha.2, htd] at this
  have hafter : st.afterLoop env p = st := by
    unfold Store.afterLoop
    rw [hnil]
    simp
  have hcreate : createIfMissing env storeWarehouse p (isComplementary env p)
        (isComplementary env p && st.visibilities.any (isPublicFor p.ID)) st n =
      ⟨[], st, n, Except.ok ()⟩ := by
    simp only [createIfMissing, needsPublic_eq, hn, Bool.false_eq_true, ↓reduceIte]
  rw [reconcilePlan_store, hnil, hafter, hcreate]
  rfl

theorem any_filter_of_imp {rows : List Visibility} {f q : Visibility → Bool}
    (h : ∀ a ∈ rows, f a = true → q a = true) : (rows.filter q).any f = rows.any f := by
  rw [Bool.eq_iff_iff, List.any_eq_true, List.any_eq_true]
  constructor
  · rintro ⟨a, ha, hf⟩
    exact ⟨a, (List.mem_filter.1 ha).1, hf⟩
  · rintro ⟨a, ha, hf⟩
    exact ⟨a, List.mem_filter.2 ⟨ha, h a ha hf⟩, hf⟩

theorem keeps_of_other_plan (env : Env) (p : ServicePlan) (v : Visibility)
    (h : v.ServicePlanID ≠ p.ID) : keeps env p v = true := by
  simp [keeps, h]

/-- The plans of a catalog processed over a store with unique identities, the
plans having unique identities too: the surviving rows stay in place, and one
public row is appended for every complementary plan that had none. -/
theorem reconcilePlans_spec (env : Env) :
    ∀ (plans : List ServicePlan) (st : Store) (n : Nat),
      UniqueIDs st.visibilities → UniquePlanIDs plans →
      (reconcilePlans env storeWarehouse plans st n).result = Except.ok () →
      ∃ cr, (reconcilePlans env storeWarehouse plans st n).store.visibilities =
          st.visibilities.filter (survives env plans) ++ cr ∧
        (reconcilePlans env storeWarehouse plans st n).store.offerings = st.offerings ∧
        UniqueIDs (reconcilePlans env storeWarehouse plans st n).store.visibilities ∧
        cr.map withoutGenerated =
          (plans.filter (needsPublic env st.visibilities)).map (fun p => newVisibility p "" 0) := by
  intro plans
  induction plans with
  | nil =>
    intro st n hU _ _
    refine ⟨[], ?_, rfl, hU, rfl⟩
    have : st.visibilities.filter (survives env []) = st.visibilities := by
      rw [List.filter_eq_self]
      intro a _
      rfl
    simp [reconcilePlans, this]
  | cons p rest ih =>
    intro st n hU hP hok
    have hPrest : UniquePlanIDs rest := (List.nodup_cons.1 hP).2
    have hpnot : ∀ q ∈ rest, q.ID ≠ p.ID := by
      intro q hq heq
      exact (List.nodup_cons.1 hP).1 (List.mem_map.2 ⟨q, hq, heq⟩)
    simp only [reconcilePlans] at hok ⊢
    cases hr : (reconcilePlan env storeWarehouse p st n).result with
    | error e => simp [hr] at hok
    | ok u =>
      simp only [hr] at hok ⊢
      obtain ⟨cr1, hv1, ho1, hu1, hcr1, hpl1⟩ := reconcilePlan_step env p st n hU hr
      obtain ⟨cr2, hv2, ho2, hu2, hcr2⟩ := ih _ _ hu1 hPrest hok
      refine ⟨cr1 ++ cr2, ?_, by rw [ho2, ho1], hu2, ?_⟩
      · rw [hv2, hv1, List.filter_append, List.filter_filter, List.append_assoc]
        have e1 : st.visibilities.filter (fun a => survives env rest a && keeps env p a) =
            st.visibilities.filter (survives env (p :: rest)) := by
          apply List.filter_congr
          intro a _
          simp [survives, Bool.and_comm]
        have e2 : cr1.filter (survives env rest) = cr1 := by
          rw [List.filter_eq_self]
          intro v hv
          unfold survives
          rw [List.all_eq_true]
          intro q hq
          apply keeps_of_other_plan
          rw [(hpl1 v hv).1]
          exact fun h => hpnot q hq h.symm
        rw [e1, e2]
      · rw [List.map_append, hcr1, hcr2]
        have e3 : rest.filter (needsPublic env
              (reconcilePlan env storeWarehouse p st n).store.visibilities) =
            rest.filter (needsPublic env st.visibilities) := by
          apply List.filter_congr
          intro q hq
          unfold needsPublic
          congr 2
          rw [hv1, List.any_append]
          have h1 : cr1.any (isPublicFor q.ID) = false := by
            rw [Bool.eq_false_iff]
            intro hany
            obtain ⟨v, hv, hpub⟩ := List.any_eq_true.1 hany
            simp only [isPublicFor, Bool.and_eq_true, decide_eq_true_eq] at hpub
            exact hpnot q hq (by rw [← hpub.1, (hpl1 v hv).1])
          rw [h1, Bool.or_false]
          apply any_filter_of_imp
          intro a _ hpub
          simp only [isPublicFor, Bool.and_eq_true, decide_eq_true_eq] at hpub
          apply keeps_of_other_plan
          rw [hpub.1]
          exact hpnot q hq
        rw [e3, List.filter_cons]
        by_cases hneed : needsPublic env st.visibilities p = true
        · simp [hneed]
        · simp [hneed]

/-- The plans of a catalog processed over any store: a plan that has at most
one public row still has at most one, and a plan that is processed as not
complementary has at most one. -/
theorem reconcilePlans_count (env : Env) (pid : String) :
    ∀ (plans : List ServicePlan) (st : Store) (n : Nat),
      (reconcilePlans env storeWarehouse plans st n).result = Except.ok () →
      ((publicCount st.visibilities pid ≤ 1 ∨
          ∃ p ∈ plans, p.ID = pid ∧ isComplementary env p = false) →
        publicCount (reconcilePlans env storeWarehouse plans st n).store.visibilities pid ≤ 1) ∧
      (reconcilePlans env storeWarehouse plans st n).store.offerings = st.offerings := by
  intro plans
  induction plans with
  | nil =>
    intro st n _
    refine ⟨?_, rfl⟩
    rintro (h | ⟨p, hp, -⟩)
    · exact h
    · cases hp
  | cons p rest ih =>
    intro st n hok
    simp only [reconcilePlans] at hok ⊢
    cases hr : (reconcilePlan env storeWarehouse p st n).result with
    | error e => simp [hr] at hok
    | ok u =>
      simp only [hr] at hok ⊢
      obtain ⟨hkeep, hzero, hoff⟩ := reconcilePlan_count env p st n hr pid
      obtain ⟨hrest, hoff2⟩ := ih _ _ hok
      refine ⟨?_, by rw [hoff2, hoff]⟩
      rintro (h | ⟨q, hq, hqid, hqc⟩)
      · exact hrest (Or.inl (hkeep h))
      · rcases List.mem_cons.1 hq with rfl | hq
        · exact hrest (Or.inl (by rw [hzero hqid hqc]; omega))
        · exact hrest (Or.inr ⟨q, hq, hqid, hqc⟩)

/-- The plans of a catalog whose rows are as the filter wants them are left
alone: the only calls are the listings. -/
theorem reconcilePlans_settled (env : Env) :
    ∀ (plans : List ServicePlan) (st : Store) (n : Nat),
      (∀ p ∈ plans, (∀ v ∈ st.visibilities, keeps env p v = true) ∧
        needsPublic env st.visibilities p = false) →
      reconcilePlans env storeWarehouse plans st n =
        ⟨plans.map (fun p => ⟨Call.ListByServicePlanID p.ID, none⟩), st, n, Except.ok ()⟩ := by
  intro plans
  induction plans with
  | nil => intro st n _; rfl
  | cons p rest ih =>
    intro st n h
    have hp := h p (List.mem_cons_self _ _)
    simp only [reconcilePlans, reconcilePlan_settled env p st n hp.1 hp.2]
    rw [ih st n (fun q hq => h q (List.mem_cons_of_mem _ hq))]
    rfl

/-- A run over the store, in terms of the plans of the broker's catalog. -/
theorem Run_store (env : Env) (next : Request → Except Error Response) (req : Request)
    (st : Store) (n : Nat) (response : Response) (h : next req = Except.ok response) :
    Run env storeWarehouse next req st n =
      match (reconcilePlans env storeWarehouse
          (plansOf (st.catalog (env.GetString response.Body "id"))) st n).result with
      | Except.ok _ =>
        ⟨some response, none,
          ⟨Call.ListWithServicePlansByBrokerID (env.GetString response.Body "id"), none⟩ ::
            (reconcilePlans env storeWarehouse
              (plansOf (st.catalog (env.GetString response.Body "id"))) st n).events,
          (reconcilePlans env storeWarehouse
            (plansOf (st.catalog (env.GetString response.Body "id"))) st n).store,
          (reconcilePlans env storeWarehouse
            (plansOf (st.catalog (env.GetString response.Body "id"))) st n).uuids⟩
      | Except.error err =>
        ⟨none, some err,
          ⟨Call.ListWithServicePlansByBrokerID (env.GetString response.Body "id"), none⟩ ::
            (reconcilePlans env storeWarehouse
              (plansOf (st.catalog (env.GetString response.Body "id"))) st n).events,
          st,
          (reconcilePlans env storeWarehouse
            (plansOf (st.catalog (env.GetString response.Body "id"))) st n).uuids⟩ := by
  have hl : ∀ b, storeWarehouse.ListWithServicePlansByBrokerID st b = Except.ok (st.catalog b) :=
    fun _ => rfl
  rw [Run_next_ok env storeWarehouse next req st n response h]
  simp only [reconcile, hl, reconcileCatalog_eq_plans]

/-- A successful run over the store, in terms of the plans of the broker's
catalog. -/
theorem Run_store_ok (env : Env) (next : Request → Except Error Response) (req : Request)
    (st : Store) (n : Nat) (response : Response) (h : next req = Except.ok response)
    (hok : (Run env storeWarehouse next req st n).err = none) :
    (reconcilePlans env storeWarehouse
        (plansOf (st.catalog (env.GetString response.Body "id"))) st n).result = Except.ok () ∧
    (Run env storeWarehouse next req st n).store =
      (reconcilePlans env storeWarehouse
        (plansOf (st.catalog (env.GetString response.Body "id"))) st n).store ∧
    (Run env storeWarehouse next req st n).events =
      ⟨Call.ListWithServicePlansByBrokerID (env.GetString response.Body "id"), none⟩ ::
        (reconcilePlans env storeWarehouse
          (plansOf (st.catalog (env.GetString response.Body "id"))) st n).events := by
  rw [Run_store env next req st n response h] at hok ⊢
  cases hr : (reconcilePlans env storeWarehouse
      (plansOf (st.catalog (env.GetString response.Body "id"))) st n).result with
  | error e => rw [hr] at hok; simp at hok
  | ok u => exact ⟨rfl, rfl, rfl⟩

theorem eq_of_planID {plans : List ServicePlan} (h : UniquePlanIDs plans) {p q : ServicePlan}
    (hp : p ∈ plans) (hq : q ∈ plans) (hid : p.ID = q.ID) : p = q :=
  List.inj_on_of_nodup_map h hp hq hid

/-- The rows a successful pass leaves behind are as the filter wants them for
every plan of the catalog. -/
theorem settled_of_spec (env : Env) (plans : List ServicePlan) (rows cr : List Visibility)
    (hP : UniquePlanIDs plans)
    (hcr : cr.map withoutGenerated =
      (plans.filter (needsPublic env rows)).map (fun p => newVisibility p "" 0)) :
    ∀ p ∈ plans, (∀ v ∈ rows.filter (survives env plans) ++ cr, keeps env p v = true) ∧
      needsPublic env (rows.filter (survives env plans) ++ cr) p = false := by
  have hcrrow : ∀ v ∈ cr, ∃ q ∈ plans, needsPublic env rows q = true ∧
      v.ServicePlanID = q.ID ∧ v.PlatformID = "" := by
    intro v hv
    have : withoutGenerated v ∈ cr.map withoutGenerated := List.mem_map.2 ⟨v, hv, rfl⟩
    rw [hcr] at this
    obtain ⟨q, hq, hqv⟩ := List.mem_map.1 this
    obtain ⟨hqp, hqn⟩ := List.mem_filter.1 hq
    have h1 : (withoutGenerated v).ServicePlanID = q.ID := by rw [← hqv]; rfl
    have h2 : (withoutGenerated v).PlatformID = "" := by rw [← hqv]; rfl
    exact ⟨q, hqp, hqn, h1, h2⟩
  intro p hp
  constructor
  · intro v hv
    rcases List.mem_append.1 hv with hv | hv
    · have := (List.mem_filter.1 hv).2
      unfold survives at this
      exact List.all_eq_true.1 this p hp
    · obtain ⟨q, hq, hqn, hvq, hvp⟩ := hcrrow v hv
      by_cases hid : v.ServicePlanID = p.ID
      · have hqp : q = p := eq_of_planID hP hq hp (by rw [← hvq, hid])
        subst hqp
        unfold needsPublic at hqn
        simp only [Bool.and_eq_true] at hqn
        simp [keeps, toDelete, hqn.1, hvp]
      · exact keeps_of_other_plan env p v hid
  · by_cases hc : isComplementary env p = true
    · unfold needsPublic
      rw [hc, Bool.true_and, Bool.not_eq_false', List.any_append, Bool.or_eq_true]
      by_cases hneed : needsPublic env rows p = true
      · right
        have : newVisibility p "" 0 ∈ cr.map withoutGenerated := by
          rw [hcr]
          exact List.mem_map.2 ⟨p, List.mem_filter.2 ⟨hp, hneed⟩, rfl⟩
        obtain ⟨v, hv, hvp⟩ := List.mem_map.1 this
        refine List.any_eq_true.2 ⟨v, hv, ?_⟩
        have h1 : (withoutGenerated v).ServicePlanID = p.ID := by rw [hvp]; rfl
        have h2 : (withoutGenerated v).PlatformID = "" := by rw [hvp]; rfl
        have h1' : v.ServicePlanID = p.ID := h1
        have h2' : v.PlatformID = "" := h2
        simp [isPublicFor, h1', h2']
      · left
        unfold needsPublic at hneed
        rw [hc, Bool.true_and, Bool.not_eq_true'] at hneed
        simp only [Bool.not_eq_false] at hneed
        obtain ⟨v, hv, hpub⟩ := List.any_eq_true.1 hneed
        refine List.any_eq_true.2 ⟨v, List.mem_filter.2 ⟨hv, ?_⟩, hpub⟩
        simp only [isPublicFor, Bool.and_eq_true, decide_eq_true_eq] at hpub
        unfold survives
        rw [List.all_eq_true]
        intro q hq
        by_cases hid : v.ServicePlanID = q.ID
        · have hqp : q = p := eq_of_planID hP hq hp (by rw [← hid, hpub.1])
          subst hqp
          simp [keeps, toDelete, hc, hpub.2]
        · exact keeps_of_other_plan env q v hid
    · unfold needsPublic
      simp only [Bool.not_eq_true] at hc
      rw [hc]
      rfl

/-! ## The state a run leaves behind -/

theorem plansOf_filter_sublist (q : ServiceOffering → Bool) :
    ∀ catalog : List ServiceOffering, (plansOf (catalog.filter q)).Sublist (plansOf catalog) := by
  intro catalog
  induction catalog with
  | nil => exact List.Sublist.refl _
  | cons o rest ih =>
    rw [List.filter_cons]
    by_cases h : q o = true
    · simp only [h, ↓reduceIte, plansOf]
      exact List.Sublist.append (List.Sublist.refl _) ih
    · simp only [h, Bool.false_eq_true, ↓reduceIte, plansOf]
      exact ih.trans (List.sublist_append_right _ _)

theorem uniquePlanIDs_catalog (st : Store) (brokerID : String)
    (h : UniquePlanIDs (plansOf st.offerings)) : UniquePlanIDs (plansOf (st.catalog brokerID)) :=
  List.Nodup.sublist ((plansOf_filter_sublist _ st.offerings).map _) h

theorem next_ok_of_run_ok {σ : Type} (env : Env) (W : Warehouse σ)
    (next : Request → Except Error Response) (req : Request) (st : σ) (n : Nat)
    (hok : (Run env W next req st n).err = none) : ∃ response, next req = Except.ok response := by
  cases hn : next req with
  | error e => rw [Run_next_error env W next req st n e hn] at hok; cases hok
  | ok response => exact ⟨response, rfl⟩

/-- Claim C1.  Over the visibility store, with visibility identities unique
in the store and plan identities unique among its plans: if a run ends without
an error, a second run of the same request on the store it left behind ends
without an error too, issues no `Create` and no `Delete` call, and leaves the
store as it found it. -/
theorem rerun_issues_no_writes (env : Env) (next : Request → Except Error Response)
    (req : Request) (st : Store) (n m : Nat)
    (hU : UniqueIDs st.visibilities) (hP : UniquePlanIDs (plansOf st.offerings))
    (hok : (Run env storeWarehouse next req st n).err = none) :
    (Run env storeWarehouse next req (Run env storeWarehouse next req st n).store m).err = none ∧
    (∀ ev ∈ (Run env storeWarehouse next req (Run env storeWarehouse next req st n).store m).events,
      ev.isCreate = false ∧ ev.isDelete = false) ∧
    (Run env storeWarehouse next req (Run env storeWarehouse next req st n).store m).store =
      (Run env storeWarehouse next req st n).store := by
  obtain ⟨response, hnext⟩ := next_ok_of_run_ok env storeWarehouse next req st n hok
  obtain ⟨hres, hstore, -⟩ := Run_store_ok env next req st n response hnext hok
  have hPc := uniquePlanIDs_catalog st (env.GetString response.Body "id") hP
  obtain ⟨cr, hvis, hoff, -, hcr⟩ := reconcilePlans_spec env _ st n hU hPc hres
  have hcat : (Run env storeWarehouse next req st n).store.catalog
      (env.GetString response.Body "id") = st.catalog (env.GetString response.Body "id") := by
    unfold Store.catalog
    rw [hstore, hoff]
  have hsettled := settled_of_spec env _ st.visibilities cr hPc hcr
  rw [← hvis, ← hstore] at hsettled
  rw [Run_store env next req _ m response hnext, hcat,
    reconcilePlans_settled env _ _ m hsettled]
  refine ⟨rfl, ?_, rfl⟩
  intro ev hev
  simp only [List.mem_cons, List.mem_map] at hev
  rcases hev with rfl | ⟨p, -, rfl⟩
  · exact ⟨rfl, rfl⟩
  · exact ⟨rfl, rfl⟩

/-- The statement of C1 at `sampleStore`. -/
theorem rerun_issues_no_writes_witness :
    (Run sampleEnv storeWarehouse sampleNext sampleRequest
      (Run sampleEnv storeWarehouse sampleNext sampleRequest sampleStore 0).store 1).err = none ∧
    (Run sampleEnv storeWarehouse sampleNext sampleRequest
      (Run sampleEnv storeWarehouse sampleNext sampleRequest sampleStore 0).store 1).store =
      (Run sampleEnv storeWarehouse sampleNext sampleRequest sampleStore 0).store :=
  have h := rerun_issues_no_writes sampleEnv sampleNext sampleRequest sampleStore 0 1
    (by decide) (by decide) (by decide)
  ⟨h.1, h.2.2⟩

/-- Claim C2, as the code has it: the filter never removes a public row of a
complementary plan, so it does not repair a plan that has several.  Over the
visibility store, if every complementary plan of the broker's catalog has at
most one row with empty `PlatformID` before the run, then after a run that
ends without an error every plan of the catalog has at most one such row. -/
theorem at_most_one_public_row (env : Env) (next : Request → Except Error Response)
    (req : Request) (st : Store) (n : Nat) (response : Response)
    (hnext : next req = Except.ok response)
    (hok : (Run env storeWarehouse next req st n).err = none)
    (hpub : ∀ p ∈ plansOf (st.catalog (env.GetString response.Body "id")),
      isComplementary env p = true → publicCount st.visibilities p.ID ≤ 1) :
    ∀ p ∈ plansOf (st.catalog (env.GetString response.Body "id")),
      publicCount (Run env storeWarehouse next req st n).store.visibilities p.ID ≤ 1 := by
  obtain ⟨hres, hstore, -⟩ := Run_store_ok env next req st n response hnext hok
  intro p hp
  rw [hstore]
  apply (reconcilePlans_count env p.ID _ st n hres).1
  by_cases hc : isComplementary env p = true
  · exact Or.inl (hpub p hp hc)
  · exact Or.inr ⟨p, hp, rfl, by simpa using hc⟩

/-- The amended C2 at plan `A` of `sampleStore`. -/
theorem at_most_one_public_row_witness :
    publicCount
      (Run sampleEnv storeWarehouse sampleNext sampleRequest sampleStore 0).store.visibilities
      planA.ID ≤ 1 :=
  at_most_one_public_row sampleEnv sampleNext sampleRequest sampleStore 0 ⟨200, brokerBody⟩
    rfl (by decide) (by decide) planA (by decide)

/-- Claim C2 fails on the code.  The complementary plan `A` has two rows with
empty `PlatformID` with distinct identities; the run ends without an error,
issues no `Delete`, and the plan still has both rows. -/
theorem two_public_rows_stay :
    planA ∈ plansOf (twoPublicStore.catalog "b1") ∧
    (Run sampleEnv storeWarehouse sampleNext sampleRequest twoPublicStore 0).err = none ∧
    (Run sampleEnv storeWarehouse sampleNext sampleRequest twoPublicStore 0).events.filter
      Event.isDelete = [] ∧
    publicCount
      (Run sampleEnv storeWarehouse sampleNext sampleRequest twoPublicStore 0).store.visibilities
      "A" = 2 := by
  decide

/-- Claim C5.  Over the visibility store, with visibility identities unique
in the store and plan identities unique among its plans: a complementary plan
of the broker's catalog that has at most one row with empty `PlatformID`
before the run has, after a run that ends without an error, exactly one row,
and that row has an empty `PlatformID`. -/
theorem public_plan_result (env : Env) (next : Request → Except Error Response)
    (req : Request) (st : Store) (n : Nat) (response : Response) (p : ServicePlan)
    (hnext : next req = Except.ok response)
    (hU : UniqueIDs st.visibilities) (hP : UniquePlanIDs (plansOf st.offerings))
    (hok : (Run env storeWarehouse next req st n).err = none)
    (hp : p ∈ plansOf (st.catalog (env.GetString response.Body "id")))
    (hc : isComplementary env p = true) (hone : publicCount st.visibilities p.ID ≤ 1) :
    ∃ v, rowsOf (Run env storeWarehouse next req st n).store.visibilities p.ID = [v] ∧
      v.PlatformID = "" := by
  obtain ⟨hres, hstore, -⟩ := Run_store_ok env next req st n response hnext hok
  have hPc := uniquePlanIDs_catalog st (env.GetString response.Body "id") hP
  obtain ⟨cr, hvis, -, -, hcr⟩ := reconcilePlans_spec env _ st n hU hPc hres
  obtain ⟨hkeep, hneed⟩ := settled_of_spec env _ st.visibilities cr hPc hcr p hp
  rw [← hvis, ← hstore] at hkeep hneed
  have hcount := (reconcilePlans_count env p.ID _ st n hres).1 (Or.inl hone)
  rw [← hstore] at hcount
  have hrows : rowsOf (Run env storeWarehouse next req st n).store.visibilities p.ID =
      (Run env storeWarehouse next req st n).store.visibilities.filter (isPublicFor p.ID) := by
    unfold rowsOf
    apply List.filter_congr
    intro v hv
    have hk := hkeep v hv
    by_cases hid : v.ServicePlanID = p.ID
    · simp only [keeps, hid, decide_True, Bool.true_and, hc, toDelete, ↓reduceIte,
        Bool.not_eq_true', decide_eq_false_iff_not, Decidable.not_not] at hk
      simp [isPublicFor, hid, hk]
    · simp [isPublicFor, hid]
  unfold needsPublic at hneed
  rw [hc, Bool.true_and, Bool.not_eq_false'] at hneed
  obtain ⟨w, hw, hwpub⟩ := List.any_eq_true.1 hneed
  have hmem : w ∈ (Run env storeWarehouse next req st n).store.visibilities.filter
      (isPublicFor p.ID) := List.mem_filter.2 ⟨hw, hwpub⟩
  unfold publicCount at hcount
  rw [hrows]
  cases hl : (Run env storeWarehouse next req st n).store.visibilities.filter
      (isPublicFor p.ID) with
  | nil => rw [hl] at hmem; cases hmem
  | cons a rest =>
    rw [hl] at hcount
    have hrest : rest = [] := by
      cases rest with
      | nil => rfl
      | cons b more => simp at hcount
    subst hrest
    refine ⟨a, rfl, ?_⟩
    have ha : a ∈ (Run env storeWarehouse next req st n).store.visibilities.filter
        (isPublicFor p.ID) := by rw [hl]; exact List.mem_singleton.2 rfl
    have := (List.mem_filter.1 ha).2
    simp only [isPublicFor, Bool.and_eq_true, decide_eq_true_eq] at this
    exact this.2

/-- The statement of C5 at plan `A` of `sampleStore`. -/
theorem public_plan_result_witness :
    ∃ v, rowsOf (Run sampleEnv storeWarehouse sampleNext sampleRequest sampleStore 0).store.visibilities
        planA.ID = [v] ∧ v.PlatformID = "" :=
  public_plan_result sampleEnv sampleNext sampleRequest sampleStore 0 ⟨200, brokerBody⟩ planA
    rfl (by decide) (by decide) (by decide) (by decide) (by decide) (by decide)

theorem plansOf_perm {c1 c2 : List ServiceOffering} (h : c1.Perm c2) :
    (plansOf c1).Perm (plansOf c2) := by
  induction h with
  | nil => exact List.Perm.refl _
  | cons o _ ih => exact List.Perm.append (List.Perm.refl _) ih
  | swap a b l =>
    simp only [plansOf]
    rw [← List.append_assoc, ← List.append_assoc]
    exact List.Perm.append List.perm_append_comm (List.Perm.refl _)
  | trans _ _ ih1 ih2 => exact ih1.trans ih2

theorem plansOf_reordered {c1 c2 : List ServiceOffering} (h : Reordered c1 c2) :
    (plansOf c1).Perm (plansOf c2) := by
  obtain ⟨c, hf, hp⟩ := h
  have hfp : (plansOf c1).Perm (plansOf c) := by
    clear hp
    induction hf with
    | nil => exact List.Perm.refl _
    | cons ho _ ih => exact List.Perm.append ho ih
  exact hfp.trans (plansOf_perm hp)

theorem survives_perm (env : Env) {ps qs : List ServicePlan} (h : ps.Perm qs) (v : Visibility) :
    survives env ps v = survives env qs v := by
  unfold survives
  rw [Bool.eq_iff_iff, List.all_eq_true, List.all_eq_true]
  constructor
  · intro hall p hp; exact hall p (h.mem_iff.2 hp)
  · intro hall p hp; exact hall p (h.mem_iff.1 hp)

/-- Claim C10.  Over the visibility store, with visibility identities unique
in the store and plan identities unique among its plans: take two stores with
the same visibility rows whose catalogs for the broker are reorderings of one
another, offerings reordered and plans reordered within offerings.  If both
runs end without an error, the rows of the initial store that are left are the
same, in the same places, so the same rows were deleted; what each run appended
to them are the rows it created, all public, and up to their identities and
timestamps the created rows of one run are those of the other in some order,
so the same plans received a public visibility. -/
theorem order_independent (env : Env) (next : Request → Except Error Response)
    (req : Request) (st1 st2 : Store) (n1 n2 : Nat) (response : Response)
    (hnext : next req = Except.ok response)
    (hvis : st1.visibilities = st2.visibilities)
    (hre : Reordered (st1.catalog (env.GetString response.Body "id"))
      (st2.catalog (env.GetString response.Body "id")))
    (hU : UniqueIDs st1.visibilities) (hP : UniquePlanIDs (plansOf st1.offerings))
    (hok1 : (Run env storeWarehouse next req st1 n1).err = none)
    (hok2 : (Run env storeWarehouse next req st2 n2).err = none) :
    ∃ c1 c2,
      (Run env storeWarehouse next req st1 n1).store.visibilities =
        st1.visibilities.filter
          (survives env (plansOf (st1.catalog (env.GetString response.Body "id")))) ++ c1 ∧
      (Run env storeWarehouse next req st2 n2).store.visibilities =
        st1.visibilities.filter
          (survives env (plansOf (st1.catalog (env.GetString response.Body "id")))) ++ c2 ∧
      (c1.map withoutGenerated).Perm (c2.map withoutGenerated) ∧
      (c1.map (fun v => v.ServicePlanID)).Perm (c2.map (fun v => v.ServicePlanID)) ∧
      (∀ v ∈ c1 ++ c2, v.PlatformID = "") := by
  obtain ⟨hres1, hstore1, -⟩ := Run_store_ok env next req st1 n1 response hnext hok1
  obtain ⟨hres2, hstore2, -⟩ := Run_store_ok env next req st2 n2 response hnext hok2
  have hperm := plansOf_reordered hre
  have hPc1 := uniquePlanIDs_catalog st1 (env.GetString response.Body "id") hP
  have hPc2 : UniquePlanIDs (plansOf (st2.catalog (env.GetString response.Body "id"))) :=
    ((List.Perm.map (fun p : ServicePlan => p.ID) hperm).nodup_iff).1 hPc1
  obtain ⟨c1, hv1, -, -, hcr1⟩ := reconcilePlans_spec env _ st1 n1 hU hPc1 hres1
  obtain ⟨c2, hv2, -, -, hcr2⟩ := reconcilePlans_spec env _ st2 n2 (hvis ▸ hU) hPc2 hres2
  have hkept : st2.visibilities.filter
        (survives env (plansOf (st2.catalog (env.GetString response.Body "id")))) =
      st1.visibilities.filter
        (survives env (plansOf (st1.catalog (env.GetString response.Body "id")))) := by
    rw [← hvis]
    exact List.filter_congr (fun v _ => (survives_perm env hperm v).symm)
  have hcperm : (c1.map withoutGenerated).Perm (c2.map withoutGenerated) := by
    rw [hcr1, hcr2, ← hvis]
    exact (hperm.filter _).map _
  have hpublic : ∀ (c : List Visibility) (ps : List ServicePlan) (rows : List Visibility),
      c.map withoutGenerated = (ps.filter (needsPublic env rows)).map
        (fun p => newVisibility p "" 0) → ∀ v ∈ c, v.PlatformID = "" := by
    intro c ps rows hc v hv
    have : withoutGenerated v ∈ c.map withoutGenerated := List.mem_map.2 ⟨v, hv, rfl⟩
    rw [hc] at this
    obtain ⟨q, -, hq⟩ := List.mem_map.1 this
    have h2 : (withoutGenerated v).PlatformID = "" := by rw [← hq]; rfl
    exact h2
  refine ⟨c1, c2, by rw [hstore1, hv1], by rw [hstore2, hv2, hkept], hcperm, ?_, ?_⟩
  · have := hcperm.map (fun v => v.ServicePlanID)
    simpa [List.map_map, Function.comp_def, withoutGenerated] using this
  · intro v hv
    rcases List.mem_append.1 hv with hv | hv
    · exact hpublic c1 _ _ hcr1 v hv
    · exact hpublic c2 _ _ hcr2 v hv

/-- The statement of C10 at `sampleStore` and the same store with the plans
listed in the other order. -/
theorem order_independent_witness :
    ∃ c1 c2,
      (Run sampleEnv storeWarehouse sampleNext sampleRequest sampleStore 0).store.visibilities =
        sampleStore.visibilities.filter
          (survives sampleEnv (plansOf (sampleStore.catalog
            (sampleEnv.GetString (Response.mk 200 brokerBody).Body "id")))) ++ c1 ∧
      (Run sampleEnv storeWarehouse sampleNext sampleRequest swappedStore 5).store.visibilities =
        sampleStore.visibilities.filter
          (survives sampleEnv (plansOf (sampleStore.catalog
            (sampleEnv.GetString (Response.mk 200 brokerBody).Body "id")))) ++ c2 ∧
      (c1.map withoutGenerated).Perm (c2.map withoutGenerated) ∧
      (c1.map (fun v => v.ServicePlanID)).Perm (c2.map (fun v => v.ServicePlanID)) ∧
      (∀ v ∈ c1 ++ c2, v.PlatformID = "") :=
  order_independent sampleEnv sampleNext sampleRequest sampleStore swappedStore 0 5
    ⟨200, brokerBody⟩ rfl rfl
    ⟨[⟨"o1", "service", "b1", [planB, planA]⟩],
      List.Forall₂.cons (List.Perm.swap planB planA []) List.Forall₂.nil, List.Perm.refl _⟩
    (by decide) (by decide) (by decide) (by decide)

/-! ## The error a run returns -/

/-- A call of a run that returned an error is what the error `Run` returns
stems from. -/
theorem explains_of_failed {σ : Type} (env : Env) (W : Warehouse σ)
    (next : Request → Except Error Response) (req : Request) (st : σ) (n : Nat) (ev : Event)
    (hev : ev ∈ (Run env W next req st n).events) (hfail : ev.err ≠ none) :
    ∃ err, (Run env W next req st n).err = some err ∧ Explains ev err := by
  cases hn : next req with
  | error e =>
    rw [Run_next_error env W next req st n e hn] at hev
    cases hev
  | ok response =>
    obtain ⟨-, hcase⟩ := Run_failStop env W next req st n response hn
    rcases hcase with ⟨-, -, -, -, hclean⟩ | ⟨err, pre, last, -, -, herr, -, hevs, hpre, hex⟩
    · exact absurd (hclean ev hev) hfail
    · rw [hevs] at hev
      rcases List.mem_append.1 hev with hin | hin
      · exact absurd (hpre ev hin) hfail
      · have hlast : ev = last := by simpa using hin
        subst hlast
        exact ⟨err, herr, hex⟩

/-- Claim C11, as the code has it: `Run` wraps no error with the broker or
the plan.  When a call of the run fails with the error `e`, `Run` returns `e`
itself if the call is the catalog listing, `ListByServicePlanID` or `Delete`;
`fmt.Errorf("could not generate GUID for visibility: %s", e)` if it is
`uuid.NewV4`; and `util.HandleStorageError(e, "visibility", id)` with the
generated identity of the visibility if it is `Create`.  So a text the returned
error mentions is mentioned by `e`, or occurs in one of the two fixed texts or
in the generated identity. -/
theorem returned_error_shape {σ : Type} (env : Env) (W : Warehouse σ)
    (next : Request → Except Error Response) (req : Request) (st : σ) (n : Nat) (ev : Event)
    (e : Error) (hev : ev ∈ (Run env W next req st n).events) (he : ev.err = some e) :
    (∀ b, ev.call = Call.ListWithServicePlansByBrokerID b →
      (Run env W next req st n).err = some e) ∧
    (∀ planID, ev.call = Call.ListByServicePlanID planID →
      (Run env W next req st n).err = some e) ∧
    (∀ id, ev.call = Call.Delete id → (Run env W next req st n).err = some e) ∧
    (ev.call = Call.NewV4 → (Run env W next req st n).err =
      some (Error.Errorf "could not generate GUID for visibility: %s" e)) ∧
    (∀ v, ev.call = Call.Create v → (Run env W next req st n).err =
      some (Error.HandleStorageError e "visibility" v.ID)) ∧
    (∀ err s, (Run env W next req st n).err = some err → err.mentions s = true →
      e.mentions s = true ∨ occursIn s "could not generate GUID for visibility: %s" = true ∨
        occursIn s "visibility" = true ∨
        ∃ v, ev.call = Call.Create v ∧ occursIn s v.ID = true) := by
  obtain ⟨err, herr, hex⟩ := explains_of_failed env W next req st n ev hev (by rw [he]; simp)
  unfold Explains at hex
  refine ⟨?_, ?_, ?_, ?_, ?_, ?_⟩
  · intro b hb
    rw [hb] at hex
    rw [herr, ← he, hex]
  · intro planID hp
    rw [hp] at hex
    rw [herr, ← he, hex]
  · intro id hid
    rw [hid] at hex
    rw [herr, ← he, hex]
  · intro hu
    rw [hu] at hex
    obtain ⟨e1, he1, herr1⟩ := hex
    rw [he] at he1
    injection he1 with he1
    rw [herr, herr1, he1]
  · intro v hv
    rw [hv] at hex
    obtain ⟨e1, he1, herr1⟩ := hex
    rw [he] at he1
    injection he1 with he1
    rw [herr, herr1, he1]
  · intro err2 s herr2 hm
    rw [herr] at herr2
    injection herr2 with herr2
    subst herr2
    cases hc : ev.call with
    | ListWithServicePlansByBrokerID b =>
      rw [hc] at hex
      have : err = e := by rw [he] at hex; injection hex with hex; exact hex.symm
      left; rw [← this]; exact hm
    | ListByServicePlanID planID =>
      rw [hc] at hex
      have : err = e := by rw [he] at hex; injection hex with hex; exact hex.symm
      left; rw [← this]; exact hm
    | Delete id =>
      rw [hc] at hex
      have : err = e := by rw [he] at hex; injection hex with hex; exact hex.symm
      left; rw [← this]; exact hm
    | NewV4 =>
      rw [hc] at hex
      obtain ⟨e1, he1, herr1⟩ := hex
      rw [he] at he1
      injection he1 with he1
      subst he1
      rw [herr1] at hm
      simp only [Error.mentions, Bool.or_eq_true] at hm
      rcases hm with hm | hm
      · right; left; exact hm
      · left; exact hm
    | Create v =>
      rw [hc] at hex
      obtain ⟨e1, he1, herr1⟩ := hex
      rw [he] at he1
      injection he1 with he1
      subst he1
      rw [herr1] at hm
      simp only [Error.mentions, Bool.or_eq_true] at hm
      rcases hm with (hm | hm) | hm
      · left; exact hm
      · right; right; left; exact hm
      · right; right; right; exact ⟨v, rfl, hm⟩

/-- The amended C11 at a catalog listing that fails. -/
theorem returned_error_shape_witness :
    (Run sampleEnv downWarehouse sampleNext sampleRequest sampleStore 0).err =
      some (Error.Message "connection refused") :=
  (returned_error_shape sampleEnv downWarehouse sampleNext sampleRequest sampleStore 0
    ⟨Call.ListWithServicePlansByBrokerID "b1", some (Error.Message "connection refused")⟩
    (Error.Message "connection refused") (by decide) rfl).1 "b1" rfl

/-- Claim C11 fails on the code.  For the broker `b1`: when the catalog
listing fails, `Run` returns the error of the listing as it is; when the
`Delete` of the row `v1` of plan `A` fails, the error of the `Delete` as it is;
when `uuid.NewV4` fails, the `fmt.Errorf` text around its error; when the
`Create` for plan `A` fails, what `util.HandleStorageError` makes of the error,
the word `visibility` and the generated identity.  None of the four mentions
the broker, and none mentions the plan or the row. -/
theorem errors_do_not_name_the_broker :
    (Run sampleEnv downWarehouse sampleNext sampleRequest sampleStore 0).err =
      some (Error.Message "connection refused") ∧
    (Error.Message "connection refused").mentions "b1" = false ∧
    (Run sampleEnv racingWarehouse sampleNext sampleRequest sampleStore 0).err =
      some Error.ErrNotFoundInStorage ∧
    Error.ErrNotFoundInStorage.mentions "b1" = false ∧
    Error.ErrNotFoundInStorage.mentions "v1" = false ∧
    (Run failingUuidEnv storeWarehouse sampleNext sampleRequest sampleStore 0).err =
      some (Error.Errorf "could not generate GUID for visibility: %s"
        (Error.Message "no entropy")) ∧
    (Error.Errorf "could not generate GUID for visibility: %s"
      (Error.Message "no entropy")).mentions "b1" = false ∧
    (Run sampleEnv racingWarehouse sampleNext sampleRequest emptyStore 0).err =
      some (Error.HandleStorageError Error.ErrAlreadyExistsInStorage "visibility" "uuid-0") ∧
    (Error.HandleStorageError Error.ErrAlreadyExistsInStorage "visibility" "uuid-0").mentions
      "b1" = false ∧
    (Error.HandleStorageError Error.ErrAlreadyExistsInStorage "visibility" "uuid-0").mentions
      planA.ID = false := by
  decide

/-! ## What a run touches -/

theorem Store.Create_cases (st : Store) (v : Visibility) :
    (∃ e, Store.Create st v = Except.error e) ∨
      Store.Create st v = Except.ok (v.ID, { st with visibilities := st.visibilities ++ [v] }) := by
  unfold Store.Create
  split
  · exact Or.inl ⟨_, rfl⟩
  · split
    · exact Or.inl ⟨_, rfl⟩
    · exact Or.inr rfl

/-- The create part over the store: a row of the store it leaves is a row it
found or the row it created, it deletes nothing, and what it creates is a
public row of the plan. -/
theorem createIfMissing_frame (env : Env) (p : ServicePlan) (isC hp : Bool) (st : Store)
    (n : Nat) :
    (∀ v ∈ (createIfMissing env storeWarehouse p isC hp st n).store.visibilities,
      v ∈ st.visibilities ∨
        (⟨Call.Create v, none⟩ : Event) ∈ (createIfMissing env storeWarehouse p isC hp st n).events) ∧
    (∀ ev ∈ (createIfMissing env storeWarehouse p isC hp st n).events,
      ∀ id, ev.call ≠ Call.Delete id) ∧
    (∀ ev ∈ (createIfMissing env storeWarehouse p isC hp st n).events,
      ∀ v, ev.call = Call.Create v → v.ServicePlanID = p.ID ∧ v.PlatformID = "") := by
  unfold createIfMissing
  split
  · cases hu : env.NewV4 n with
    | error e =>
      refine ⟨fun v hv => Or.inl hv, ?_, ?_⟩
      · intro ev hev id h
        simp only [List.mem_singleton] at hev
        subst hev
        cases h
      · intro ev hev v h
        simp only [List.mem_singleton] at hev
        subst hev
        cases h
    | ok uuid =>
      have hcr : storeWarehouse.Create st (newVisibility p uuid (env.Now n)) =
          Store.Create st (newVisibility p uuid (env.Now n)) := rfl
      simp only [hcr]
      rcases Store.Create_cases st (newVisibility p uuid (env.Now n)) with ⟨e, hc⟩ | hc
      · rw [hc]
        refine ⟨fun v hv => Or.inl hv, ?_, ?_⟩
        · intro ev hev id h
          simp only [List.mem_cons, List.mem_singleton, List.not_mem_nil, or_false] at hev
          rcases hev with rfl | rfl <;> cases h
        · intro ev hev v h
          simp only [List.mem_cons, List.mem_singleton, List.not_mem_nil, or_false] at hev
          rcases hev with rfl | rfl
          · cases h
          · injection h with h
            subst h
            exact ⟨rfl, rfl⟩
      · rw [hc]
        refine ⟨?_, ?_, ?_⟩
        · intro v hv
          simp only [List.mem_append, List.mem_singleton] at hv
          rcases hv with hv | hv
          · exact Or.inl hv
          · subst hv
            right
            simp
        · intro ev hev id h
          simp only [List.mem_cons, List.mem_singleton, List.not_mem_nil, or_false] at hev
          rcases hev with rfl | rfl <;> cases h
        · intro ev hev v h
          simp only [List.mem_cons, List.mem_singleton, List.not_mem_nil, or_false] at hev
          rcases hev with rfl | rfl
          · cases h
          · injection h with h
            subst h
            exact ⟨rfl, rfl⟩
  · refine ⟨fun v hv => Or.inl hv, ?_, ?_⟩
    · intro ev hev; cases hev
    · intro ev hev; cases hev

/-- One plan processed over the store, with or without an error: a row of the
store it leaves is a row it found or a row it created; every `Delete` targets a
row that the listing for the plan returned; every `Create` is of a public row
of the plan. -/
theorem reconcilePlan_frame (env : Env) (p : ServicePlan) (st : Store) (n : Nat) :
    (∀ v ∈ (reconcilePlan env storeWarehouse p st n).store.visibilities,
      v ∈ st.visibilities ∨
        (⟨Call.Create v, none⟩ : Event) ∈ (reconcilePlan env storeWarehouse p st n).events) ∧
    (∀ ev ∈ (reconcilePlan env storeWarehouse p st n).events, ∀ id, ev.call = Call.Delete id →
      ∃ L, storeWarehouse.ListByServicePlanID st p.ID = Except.ok L ∧
        ∃ v ∈ L, v.ID = id ∧ v ∈ st.visibilities) ∧
    (∀ ev ∈ (reconcilePlan env storeWarehouse p st n).events,
      ∀ v, ev.call = Call.Create v → v.ServicePlanID = p.ID ∧ v.PlatformID = "") := by
  rw [reconcilePlan_store]
  obtain ⟨h1, h2, h3⟩ := createIfMissing_frame env p (isComplementary env p)
    (isComplementary env p && st.visibilities.any (isPublicFor p.ID)) (st.afterLoop env p) n
  refine ⟨?_, ?_, ?_⟩
  · intro v hv
    rcases h1 v hv with h | h
    · left
      unfold Store.afterLoop at h
      exact (List.mem_filter.1 h).1
    · right
      simp only [List.mem_cons, List.mem_append]
      exact Or.inr (Or.inr h)
  · intro ev hev id hid
    simp only [List.mem_cons, List.mem_append, List.mem_map] at hev
    rcases hev with rfl | ⟨w, hw, rfl⟩ | hev
    · cases hid
    · refine ⟨rowsOf st.visibilities p.ID, rfl, w, (List.mem_filter.1 hw).1, ?_, ?_⟩
      · simp only [deleted] at hid
        injection hid
      · unfold rowsOf at hw
        exact (List.mem_filter.1 (List.mem_filter.1 hw).1).1
    · exact absurd hid (h2 ev hev id)
  · intro ev hev v hv
    simp only [List.mem_cons, List.mem_append, List.mem_map] at hev
    rcases hev with rfl | ⟨w, hw, rfl⟩ | hev
    · cases hv
    · simp only [deleted] at hv
      cases hv
    · exact h3 ev hev v hv

/-- The plans of a catalog processed over the store, with or without an
error: a row of the store they leave is a row they found or a row they
created; every `Delete` targets a row that the listing for a plan of the
catalog returned, a row found at the start or created on the way; every
`Create` is of a public row of a plan of the catalog. -/
theorem reconcilePlans_frame (env : Env) :
    ∀ (plans : List ServicePlan) (st : Store) (n : Nat),
      (∀ v ∈ (reconcilePlans env storeWarehouse plans st n).store.visibilities,
        v ∈ st.visibilities ∨
          (⟨Call.Create v, none⟩ : Event) ∈ (reconcilePlans env storeWarehouse plans st n).events) ∧
      (∀ ev ∈ (reconcilePlans env storeWarehouse plans st n).events, ∀ id,
        ev.call = Call.Delete id →
        ∃ p ∈ plans, ∃ s L, storeWarehouse.ListByServicePlanID s p.ID = Except.ok L ∧
          ∃ v ∈ L, v.ID = id ∧ (v ∈ st.visibilities ∨
            (⟨Call.Create v, none⟩ : Event) ∈
              (reconcilePlans env storeWarehouse plans st n).events)) ∧
      (∀ ev ∈ (reconcilePlans env storeWarehouse plans st n).events, ∀ v,
        ev.call = Call.Create v → ∃ p ∈ plans, v.ServicePlanID = p.ID ∧ v.PlatformID = "") := by
  intro plans
  induction plans with
  | nil =>
    intro st n
    refine ⟨fun v hv => Or.inl hv, ?_, ?_⟩
    · intro ev hev; cases hev
    · intro ev hev; cases hev
  | cons p rest ih =>
    intro st n
    obtain ⟨p1, p2, p3⟩ := reconcilePlan_frame env p st n
    simp only [reconcilePlans]
    cases hr : (reconcilePlan env storeWarehouse p st n).result with
    | error e =>
      refine ⟨p1, ?_, ?_⟩
      · intro ev hev id hid
        obtain ⟨L, hL, v, hv, hvid, hvst⟩ := p2 ev hev id hid
        exact ⟨p, List.mem_cons_self _ _, st, L, hL, v, hv, hvid, Or.inl hvst⟩
      · intro ev hev v hv
        exact ⟨p, List.mem_cons_self _ _, p3 ev hev v hv⟩
    | ok u =>
      obtain ⟨r1, r2, r3⟩ := ih (reconcilePlan env storeWarehouse p st n).store
        (reconcilePlan env storeWarehouse p st n).uuids
      have hfound : ∀ v, v ∈ (reconcilePlan env storeWarehouse p st n).store.visibilities ∨
            (⟨Call.Create v, none⟩ : Event) ∈ (reconcilePlans env storeWarehouse rest
              (reconcilePlan env storeWarehouse p st n).store
              (reconcilePlan env storeWarehouse p st n).uuids).events →
          v ∈ st.visibilities ∨ (⟨Call.Create v, none⟩ : Event) ∈
            (reconcilePlan env storeWarehouse p st n).events ++
              (reconcilePlans env storeWarehouse rest
                (reconcilePlan env storeWarehouse p st n).store
                (reconcilePlan env storeWarehouse p st n).uuids).events := by
        intro v hv
        rcases hv with hv | hv
        · rcases p1 v hv with h | h
          · exact Or.inl h
          · exact Or.inr (List.mem_append.2 (Or.inl h))
        · exact Or.inr (List.mem_append.2 (Or.inr hv))
      refine ⟨?_, ?_, ?_⟩
      · intro v hv
        exact hfound v (r1 v hv)
      · intro ev hev id hid
        rcases List.mem_append.1 hev with hev | hev
        · obtain ⟨L, hL, v, hv, hvid, hvst⟩ := p2 ev hev id hid
          exact ⟨p, List.mem_cons_self _ _, st, L, hL, v, hv, hvid, Or.inl hvst⟩
        · obtain ⟨q, hq, s, L, hL, v, hv, hvid, hvst⟩ := r2 ev hev id hid
          exact ⟨q, List.mem_cons_of_mem _ hq, s, L, hL, v, hv, hvid, hfound v hvst⟩
      · intro ev hev v hv
        rcases List.mem_append.1 hev with hev | hev
        · exact ⟨p, List.mem_cons_self _ _, p3 ev hev v hv⟩
        · obtain ⟨q, hq, h⟩ := r3 ev hev v hv
          exact ⟨q, List.mem_cons_of_mem _ hq, h⟩

theorem rowsOf_append (xs ys : List Visibility) (planID : String) :
    rowsOf (xs ++ ys) planID = rowsOf xs planID ++ rowsOf ys planID := by
  simp [rowsOf, List.filter_append]

/-- The plans of a catalog processed without an error over a store with unique
identities: the rows of a plan that is not in the catalog are left as they
were. -/
theorem reconcilePlans_rows (env : Env) :
    ∀ (plans : List ServicePlan) (st : Store) (n : Nat),
      UniqueIDs st.visibilities →
      (reconcilePlans env storeWarehouse plans st n).result = Except.ok () →
      UniqueIDs (reconcilePlans env storeWarehouse plans st n).store.visibilities ∧
      ∀ planID, (∀ p ∈ plans, p.ID ≠ planID) →
        rowsOf (reconcilePlans env storeWarehouse plans st n).store.visibilities planID =
          rowsOf st.visibilities planID := by
  intro plans
  induction plans with
  | nil => intro st n hU _; exact ⟨hU, fun _ _ => rfl⟩
  | cons p rest ih =>
    intro st n hU hok
    simp only [reconcilePlans] at hok ⊢
    cases hr : (reconcilePlan env storeWarehouse p st n).result with
    | error e => simp [hr] at hok
    | ok u =>
      simp only [hr] at hok ⊢
      obtain ⟨cr, hv1, -, hu1, -, hpl1⟩ := reconcilePlan_step env p st n hU hr
      obtain ⟨hu2, hrows⟩ := ih _ _ hu1 hok
      refine ⟨hu2, ?_⟩
      intro planID hne
      rw [hrows planID (fun q hq => hne q (List.mem_cons_of_mem _ hq)), hv1, rowsOf_append]
      have hp : p.ID ≠ planID := hne p (List.mem_cons_self _ _)
      have e1 : rowsOf cr planID = [] := by
        unfold rowsOf
        rw [List.filter_eq_nil_iff]
        intro v hv hvp
        simp only [decide_eq_true_eq] at hvp
        exact hp (by rw [← (hpl1 v hv).1, hvp])
      have e2 : rowsOf (st.visibilities.filter (keeps env p)) planID =
          rowsOf st.visibilities planID := by
        unfold rowsOf
        rw [List.filter_filter]
        apply List.filter_congr
        intro v _
        by_cases hvp : v.ServicePlanID = planID
        · have : keeps env p v = true :=
            keeps_of_other_plan env p v (by rw [hvp]; exact fun h => hp h.symm)
          simp [hvp, this]
        · simp [hvp]
      rw [e1, e2, List.append_nil]

/-- Claim C12.  Over the visibility store, with visibility identities unique
in the store, for the catalog the store lists for the broker of the response:
every `Delete` of the run targets the identity of a row that
`ListByServicePlanID` returned for a plan of the catalog, a row that was in the
store before the run or that the run created; every `Create` of the run is of
a row for a plan of the catalog, with empty `PlatformID`; and the rows of a
plan that is not in the catalog are after the run what they were before it,
none removed, none changed, none added. -/
theorem reconciliation_frame (env : Env) (next : Request → Except Error Response)
    (req : Request) (st : Store) (n : Nat) (response : Response)
    (hnext : next req = Except.ok response) (hU : UniqueIDs st.visibilities) :
    (∀ ev ∈ (Run env storeWarehouse next req st n).events, ∀ id, ev.call = Call.Delete id →
      ∃ p ∈ plansOf (st.catalog (env.GetString response.Body "id")),
        ∃ s L, storeWarehouse.ListByServicePlanID s p.ID = Except.ok L ∧
          ∃ v ∈ L, v.ID = id ∧ v.ServicePlanID = p.ID ∧ (v ∈ st.visibilities ∨
            (⟨Call.Create v, none⟩ : Event) ∈ (Run env storeWarehouse next req st n).events)) ∧
    (∀ ev ∈ (Run env storeWarehouse next req st n).events, ∀ v, ev.call = Call.Create v →
      ∃ p ∈ plansOf (st.catalog (env.GetString response.Body "id")),
        v.ServicePlanID = p.ID ∧ v.PlatformID = "") ∧
    (∀ planID, (∀ p ∈ plansOf (st.catalog (env.GetString response.Body "id")), p.ID ≠ planID) →
      rowsOf (Run env storeWarehouse next req st n).store.visibilities planID =
        rowsOf st.visibilities planID) := by
  obtain ⟨-, f2, f3⟩ := reconcilePlans_frame env
    (plansOf (st.catalog (env.GetString response.Body "id"))) st n
  have hevents : (Run env storeWarehouse next req st n).events =
      ⟨Call.ListWithServicePlansByBrokerID (env.GetString response.Body "id"), none⟩ ::
        (reconcilePlans env storeWarehouse
          (plansOf (st.catalog (env.GetString response.Body "id"))) st n).events := by
    rw [Run_store env next req st n response hnext]
    cases (reconcilePlans env storeWarehouse
      (plansOf (st.catalog (env.GetString response.Body "id"))) st n).result <;> rfl
  refine ⟨?_, ?_, ?_⟩
  · intro ev hev id hid
    rw [hevents] at hev ⊢
    rcases List.mem_cons.1 hev with rfl | hev
    · cases hid
    · obtain ⟨p, hp, s, L, hL, v, hv, hvid, hvst⟩ := f2 ev hev id hid
      have hplan : v.ServicePlanID = p.ID := by
        have hL2 : L = rowsOf s.visibilities p.ID := by
          have : storeWarehouse.ListByServicePlanID s p.ID =
              Except.ok (rowsOf s.visibilities p.ID) := rfl
          rw [this] at hL
          injection hL with hL
          exact hL.symm
        rw [hL2] at hv
        unfold rowsOf at hv
        simpa using (List.mem_filter.1 hv).2
      refine ⟨p, hp, s, L, hL, v, hv, hvid, hplan, ?_⟩
      rcases hvst with h | h
      · exact Or.inl h
      · exact Or.inr (List.mem_cons_of_mem _ h)
  · intro ev hev v hv
    rw [hevents] at hev
    rcases List.mem_cons.1 hev with rfl | hev
    · cases hv
    · exact f3 ev hev v hv
  · intro planID hne
    rw [Run_store env next req st n response hnext]
    cases hr : (reconcilePlans env storeWarehouse
      (plansOf (st.catalog (env.GetString response.Body "id"))) st n).result with
    | error e => rfl
    | ok u => exact (reconcilePlans_rows env _ st n hU hr).2 planID hne

/-- The statement of C12 at `foreignRowStore`: the row of plan `Z`, which is
not in the catalog, is left as it was. -/
theorem reconciliation_frame_witness :
    rowsOf (Run sampleEnv storeWarehouse sampleNext sampleRequest foreignRowStore 0).store.visibilities
        "Z" = rowsOf foreignRowStore.visibilities "Z" :=
  (reconciliation_frame sampleEnv sampleNext sampleRequest foreignRowStore 0 ⟨200, brokerBody⟩
    rfl (by decide)).2.2 "Z" (by decide)

end ServiceManager
